import Mathlib

/-!
# BMP codec of `ImgLib/bmp_image.cpp`

A shallow embedding of `GetBMPStride`, `SaveBMP` and `LoadBMP`.

* Bytes are `Fin 256`; a file is a `List Byte`; the file system is an explicit
  state that `SaveBMP` transforms and `LoadBMP` reads.
* `int` is a signed 32-bit integer.  An `int` operation whose exact result
  leaves the 32-bit range is undefined behaviour in C++; so is the use of an
  indeterminate (never written) variable, and a `std::vector` constructed with a
  negative size throws.  In all these cases the embedding returns `none`: the
  call has no defined result.  `static_cast<uint32_t>` is reduction modulo
  `2 ^ 32`.
* `std::ifstream::read` extracts as many bytes as are available; when fewer
  than requested are left it stores those, and the stream stops being `good`;
  every later `read` extracts nothing and leaves its buffer untouched.
-/

namespace img_lib

/-! ## Data model -/

abbrev Byte := Fin 256

abbrev Path := String

/-- Modelled from the spec: the type `Color` is declared in a header that is not
among the sources.  The spec gives a colour byte-valued red, green and blue
channels. -/
structure Color where
  r : Byte
  g : Byte
  b : Byte
deriving DecidableEq, Repr

/-- Modelled from the spec: `Color::Black()`, the fill colour of a fresh grid. -/
def Color.Black : Color := ⟨0, 0, 0⟩

/-- Modelled from the spec: the class `Image` is declared in a header that is
not among the sources.  The spec describes it as a two-dimensional array of
colours, `width × height`, stored row-major; pixel `(x, y)` is element
`y * width + x` of the storage. -/
structure Image where
  width : Nat
  height : Nat
  pixels : List Color
  size_eq : pixels.length = width * height
deriving DecidableEq

namespace Image

/-- Modelled from the spec: the default-constructed image, which `LoadBMP`
returns as `{}` on failure: no width, no height, no pixels. -/
def empty : Image := ⟨0, 0, [], rfl⟩

/-- Modelled from the spec: the conversion of an image to `bool`; an image is
empty when its width or its height is zero. -/
def valid (image : Image) : Bool := decide (0 < image.width) && decide (0 < image.height)

def GetWidth (image : Image) : Int := image.width

def GetHeight (image : Image) : Int := image.height

/-- Modelled from the spec: `GetLine(y)[x]`, read access. -/
def GetPixel (image : Image) (x y : Nat) : Color :=
  image.pixels.getD (y * image.width + x) Color.Black

/-- Modelled from the spec: `GetLine(y)[x] = f (GetLine(y)[x])`, write access to
one pixel. -/
def modifyPixel (image : Image) (x y : Nat) (f : Color → Color) : Image :=
  { image with
    pixels := image.pixels.modify f (y * image.width + x)
    size_eq := by rw [List.length_modify]; exact image.size_eq }

/-- Modelled from the spec: the constructor `Image(w, h, fill)`, a grid of the
declared width and height with every pixel set to `fill`.  The spec leaves
negative dimensions undefined. -/
def create (w h : Int) (fill : Color) : Option Image :=
  if 0 ≤ w ∧ 0 ≤ h then
    some ⟨w.toNat, h.toNat, List.replicate (w.toNat * h.toNat) fill, by simp⟩
  else none

end Image

/-! ## Machine integers and byte order -/

def INT_MIN : Int := -2147483648

def INT_MAX : Int := 2147483647

/-- The result of an `int` operation whose exact value is `v`: signed overflow
is undefined behaviour. -/
def int32 (v : Int) : Option Int :=
  if INT_MIN ≤ v ∧ v ≤ INT_MAX then some v else none

/-- The conversion `static_cast<uint32_t>(v)`. -/
def toUInt32 (v : Int) : Nat := (v % 4294967296).toNat

/-- The value of a 32-bit pattern read as `int32_t`. -/
def toInt32 (v : Nat) : Int :=
  if v % 4294967296 < 2147483648 then ((v % 4294967296 : Nat) : Int)
  else ((v % 4294967296 : Nat) : Int) - 4294967296

/-- The `n` bytes of the object representation of `v`, least significant first. -/
def toLE : Nat → Nat → List Byte
  | 0, _ => []
  | n + 1, v => Fin.ofNat v :: toLE n (v / 256)

/-- The value whose object representation is the given bytes, least significant
first. -/
def fromLE : List Byte → Nat
  | [] => 0
  | b :: bs => b.val + 256 * fromLE bs

/-- A `std::vector<char>` of `n` zero bytes; a negative `int` size converts to
a huge `size_t` and the constructor throws. -/
def mkVector (n : Int) : Option (List Byte) :=
  if 0 ≤ n then some (List.replicate n.toNat 0) else none

/-! ## Constants of the supported BMP variant -/

def BMP_SIGN : List Byte := [66, 77]

def BMP_LEVELS_NUM : Nat := 1

def BMP_BITS_PER_PIXEL : Nat := 24

def BMP_COMPRESS_TYPE : Nat := 0

def BMP_HOR_AND_VER_PIXEL_PER_METER : Int := 11811

def BMP_USED_COLORS : Int := 0

def BMP_SIGNIFICENT_COLORS : Int := 16777216

/-! ## Stride -/

/-- The source function `GetBMPStride`, `4 * ((w * 3 + 3) / 4)` evaluated in
`int`; `/` truncates towards zero. -/
def GetBMPStride (w : Int) : Option Int := do
  let a ← int32 (w * 3)
  let b ← int32 (a + 3)
  int32 (4 * (b.tdiv 4))

/-- The stride as the specification words it, over the natural numbers:
`stride(width) = 4 * floor((width*3 + 3) / 4)`. -/
def stride (W : Nat) : Nat := 4 * ((W * 3 + 3) / 4)

/-- The row-alignment rule as the specification words it: each pixel row
occupies `4 * ceil(width*3 / 4)` bytes, the quotient being taken in the
rationals. -/
def rowAlignment (W : Nat) : Nat := 4 * ⌈((W * 3 : Nat) : ℚ) / 4⌉₊

/-! ## Files and streams -/

/-- The state of the file system: the content of each existing file, and which
paths can be opened for writing. -/
structure FileSystem where
  files : Path → Option (List Byte)
  writable : Path → Bool

/-- Replace the content of `file`. -/
def FileSystem.store (fs : FileSystem) (file : Path) (bytes : List Byte) : FileSystem :=
  { fs with files := Function.update fs.files file (some bytes) }

/-- Opening `std::ofstream ofs(file, ios::binary)`: creates or truncates the
file; `none` when the stream cannot be opened. -/
def FileSystem.openWrite (fs : FileSystem) (file : Path) : Option FileSystem :=
  if fs.writable file then some (fs.store file []) else none

/-- An input stream: the bytes not yet extracted and whether the stream is
still `good()`. -/
structure ifstream where
  data : List Byte
  good : Bool
deriving DecidableEq

/-- Opening `std::ifstream ifs(file, ios::binary)`; `none` when the file cannot
be opened. -/
def FileSystem.openRead (fs : FileSystem) (file : Path) : Option ifstream :=
  (fs.files file).map (fun d => ⟨d, true⟩)

/-- The call `ifs.read(buf.data(), n)` on a buffer of at least `n` bytes: the
new content of the buffer and the new state of the stream. -/
def ifstream.read (ifs : ifstream) (buf : List Byte) (n : Nat) : List Byte × ifstream :=
  if ifs.good then
    if n ≤ ifs.data.length then
      (ifs.data.take n ++ buf.drop n, ⟨ifs.data.drop n, true⟩)
    else
      (ifs.data ++ buf.drop ifs.data.length, ⟨[], false⟩)
  else (buf, ifs)

/-- The call `ifs.read(reinterpret_cast<char*>(&field), n)` on an uninitialised
scalar field of `n` bytes: `none` stands for an indeterminate value. -/
def ifstream.readScalar (ifs : ifstream) (n : Nat) : Option Nat × ifstream :=
  if ifs.good then
    if n ≤ ifs.data.length then
      (some (fromLE (ifs.data.take n)), ⟨ifs.data.drop n, true⟩)
    else
      (none, ⟨[], false⟩)
  else (none, ifs)

/-- The state of a stream after a `read` of `n` bytes, whatever the
destination: `n` bytes further when they are available, failed otherwise. -/
def ifstream.skip (ifs : ifstream) (n : Nat) : ifstream :=
  if ifs.good then
    if n ≤ ifs.data.length then ⟨ifs.data.drop n, true⟩ else ⟨[], false⟩
  else ifs

/-! ## Headers -/

/-- The second part of the header, `BitmapInfoHeader`, as `LoadBMP` holds it:
each field is `none` until a `read` has filled it. -/
structure BitmapInfoHeader where
  inf_header_size : Option Nat
  image_width : Option Int
  image_height : Option Int
  levels_num : Option Nat
  bits_per_pixel : Option Nat
  compress_type : Option Nat
  bytes_in_data : Option Nat
  hor_pixel_per_meter : Option Int
  ver_pixel_per_meter : Option Int
  used_colors : Option Int
  significant_colors : Option Int
deriving DecidableEq

/-- The C++ expression `a != c`, on a variable that may be indeterminate. -/
def neq {α : Type} [DecidableEq α] (a : Option α) (c : α) : Option Bool :=
  a.map (fun v => decide (v ≠ c))

/-- The C++ expression `p || q`: `q` is evaluated only when `p` is false. -/
def lor (p q : Option Bool) : Option Bool :=
  match p with
  | none => none
  | some true => some true
  | some false => q

/-! ## SaveBMP -/

/-- The inner loop of `SaveBMP`: for `x` from `0` to `width - 1`, the three
bytes of pixel `x` of line `y` go to `buff[x*3+0..2]` in the order blue, green,
red. -/
def saveLine (image : Image) (y : Nat) (buff : List Byte) : List Byte :=
  (List.range image.width).foldl
    (fun buff x =>
      ((buff.set (x * 3 + 0) (image.GetPixel x y).b).set
        (x * 3 + 1) (image.GetPixel x y).g).set
        (x * 3 + 2) (image.GetPixel x y).r)
    buff

/-- The outer loop of `SaveBMP`, `for (int y = n - 1; y >= 0; --y)`: fill the
row buffer, write `w3` bytes of it, then write `padding` bytes of the padding
buffer.  The state is the row buffer and the bytes written so far. -/
def saveRows (image : Image) (w3 padding : Nat) (padding_buff : List Byte) :
    Nat → List Byte × List Byte → List Byte × List Byte
  | 0, st => st
  | y + 1, (buff, ofs) =>
    let buff := saveLine image y buff
    let ofs := ofs ++ buff.take w3
    let ofs := ofs ++ padding_buff.take padding
    saveRows image w3 padding padding_buff y (buff, ofs)

/-- The function `SaveBMP`: the returned flag and the file system after the
call; `none` when the call has no defined result. -/
def SaveBMP (fs : FileSystem) (file : Path) (image : Image) : Option (Bool × FileSystem) :=
  if !image.valid then some (false, fs)
  else
    match fs.openWrite file with
    | none => some (false, fs)
    | some fs1 => do
      let padding ← GetBMPStride image.GetWidth
      -- file header
      let header_and_data_size := toUInt32 (← int32 (padding * image.GetHeight))
      let ofs : List Byte := BMP_SIGN.take 2
      let ofs := ofs ++ toLE 4 header_and_data_size
      let ofs := ofs ++ toLE 4 0
      let ofs := ofs ++ toLE 4 54
      -- info header
      let bytes_in_data := toUInt32 (← int32 (padding * image.GetHeight))
      let ofs := ofs ++ toLE 4 40
      let ofs := ofs ++ toLE 4 (toUInt32 image.GetWidth)
      let ofs := ofs ++ toLE 4 (toUInt32 image.GetHeight)
      let ofs := ofs ++ toLE 2 BMP_LEVELS_NUM
      let ofs := ofs ++ toLE 2 BMP_BITS_PER_PIXEL
      let ofs := ofs ++ toLE 4 BMP_COMPRESS_TYPE
      let ofs := ofs ++ toLE 4 bytes_in_data
      let ofs := ofs ++ toLE 4 (toUInt32 BMP_HOR_AND_VER_PIXEL_PER_METER)
      let ofs := ofs ++ toLE 4 (toUInt32 BMP_HOR_AND_VER_PIXEL_PER_METER)
      let ofs := ofs ++ toLE 4 (toUInt32 BMP_USED_COLORS)
      let ofs := ofs ++ toLE 4 (toUInt32 BMP_SIGNIFICENT_COLORS)
      -- pixel rows
      let w3 ← int32 (image.GetWidth * 3)
      let buff ← mkVector w3
      let padding ← int32 (padding - w3)
      let padding_buff ← mkVector padding
      let (_, ofs) :=
        saveRows image w3.toNat padding.toNat padding_buff image.height (buff, ofs)
      some (true, fs1.store file ofs)

/-! ## LoadBMP -/

/-- The reads of lines 163-173: the eleven fields of the info header, in
declaration order. -/
def readInfoHeader (ifs : ifstream) : BitmapInfoHeader × ifstream :=
  let (inf_header_size, ifs) := ifs.readScalar 4
  let (image_width, ifs) := ifs.readScalar 4
  let (image_height, ifs) := ifs.readScalar 4
  let (levels_num, ifs) := ifs.readScalar 2
  let (bits_per_pixel, ifs) := ifs.readScalar 2
  let (compress_type, ifs) := ifs.readScalar 4
  let (bytes_in_data, ifs) := ifs.readScalar 4
  let (hor_pixel_per_meter, ifs) := ifs.readScalar 4
  let (ver_pixel_per_meter, ifs) := ifs.readScalar 4
  let (used_colors, ifs) := ifs.readScalar 4
  let (significant_colors, ifs) := ifs.readScalar 4
  (⟨inf_header_size, image_width.map toInt32, image_height.map toInt32, levels_num,
    bits_per_pixel, compress_type, bytes_in_data, hor_pixel_per_meter.map toInt32,
    ver_pixel_per_meter.map toInt32, used_colors.map toInt32,
    significant_colors.map toInt32⟩, ifs)

/-- The inner loop of `LoadBMP`: for `x` from `0` to `width - 1`, pixel `x` of
line `y` takes its blue, green and red channels from `buff[x*3+0..2]`. -/
def loadLine (buff : List Byte) (y : Nat) (result : Image) : Image :=
  (List.range result.width).foldl
    (fun result x =>
      ((result.modifyPixel x y (fun c => { c with b := buff.getD (x * 3 + 0) 0 })).modifyPixel
        x y (fun c => { c with g := buff.getD (x * 3 + 1) 0 })).modifyPixel
        x y (fun c => { c with r := buff.getD (x * 3 + 2) 0 }))
    result

/-- The state of the outer loop of `LoadBMP`. -/
structure LoadState where
  ifs : ifstream
  buff : List Byte
  padding_buff : List Byte
  result : Image
deriving DecidableEq

/-- The outer loop of `LoadBMP`, `for (int y = n - 1; y >= 0; --y)`: read `w3`
bytes into the row buffer, copy them into line `y`, read `padding` bytes into
the padding buffer. -/
def loadRows (w3 padding : Nat) : Nat → LoadState → LoadState
  | 0, st => st
  | y + 1, st =>
    let (buff, ifs) := st.ifs.read st.buff w3
    let result := loadLine buff y st.result
    let (padding_buff, ifs) := ifs.read st.padding_buff padding
    loadRows w3 padding y ⟨ifs, buff, padding_buff, result⟩

/-- The part of `LoadBMP` that follows the validation of the headers (lines
192-214): allocate the result, then read the pixel rows. -/
def LoadBMP.readPixels (ifs : ifstream) (image_width image_height : Int) : Option Image := do
  let result ← Image.create image_width image_height Color.Black
  let w3 ← int32 (image_width * 3)
  let padding ← int32 ((← GetBMPStride image_width) - w3)
  let padding_buff ← mkVector padding
  let buff ← mkVector w3
  let st := loadRows w3.toNat padding.toNat result.height ⟨ifs, buff, padding_buff, result⟩
  some st.result

/-- The part of `LoadBMP` that follows the opening of the stream. -/
def LoadBMP.body (ifs : ifstream) : Option Image :=
  -- file header; `sign` has been resized to two zero characters
  let (sign, ifs) := ifs.read [0, 0] 2
  let (_, ifs) := ifs.readScalar 4
  let (_, ifs) := ifs.readScalar 4
  let (_, ifs) := ifs.readScalar 4
  if sign ≠ BMP_SIGN then some Image.empty
  else
    let (info_header, ifs) := readInfoHeader ifs
    do
      if ← lor (lor (neq info_header.levels_num BMP_LEVELS_NUM)
            (neq info_header.bits_per_pixel BMP_BITS_PER_PIXEL))
            (neq info_header.compress_type BMP_COMPRESS_TYPE) then
        some Image.empty
      else if ← lor (neq info_header.hor_pixel_per_meter BMP_HOR_AND_VER_PIXEL_PER_METER)
            (neq info_header.ver_pixel_per_meter BMP_HOR_AND_VER_PIXEL_PER_METER) then
        some Image.empty
      else if ← lor (neq info_header.used_colors BMP_USED_COLORS)
            (neq info_header.significant_colors BMP_SIGNIFICENT_COLORS) then
        some Image.empty
      else
        LoadBMP.readPixels ifs (← info_header.image_width) (← info_header.image_height)

/-- The function `LoadBMP`: the returned image; `none` when the call has no
defined result. -/
def LoadBMP (fs : FileSystem) (file : Path) : Option Image :=
  match fs.openRead file with
  | none => some Image.empty
  | some ifs => LoadBMP.body ifs

/-! ## The file layout in closed form -/

/-- The three bytes of pixel `(x, y)` on disk: blue, green, red. -/
def pixelBytes (image : Image) (y x : Nat) : List Byte :=
  [(image.GetPixel x y).b, (image.GetPixel x y).g, (image.GetPixel x y).r]

/-- The `width * 3` data bytes of line `y` on disk. -/
def rowBytes (image : Image) (y : Nat) : List Byte :=
  (List.range image.width).flatMap (pixelBytes image y)

/-- The pixel data of lines `n - 1`, ..., `0`, in this order, each followed by
`pad` zero bytes. -/
def pixelData (image : Image) (pad : Nat) : Nat → List Byte
  | 0 => []
  | n + 1 => rowBytes image n ++ List.replicate pad 0 ++ pixelData image pad n

/-- The 54 header bytes that `SaveBMP` writes for a `W × H` image whose pixel
data takes `size` bytes. -/
def headerBytes (W H size : Nat) : List Byte :=
  [66, 77] ++ toLE 4 size ++ toLE 4 0 ++ toLE 4 54 ++ toLE 4 40 ++ toLE 4 W ++ toLE 4 H ++
    toLE 2 1 ++ toLE 2 24 ++ toLE 4 0 ++ toLE 4 size ++ toLE 4 11811 ++ toLE 4 11811 ++
    toLE 4 0 ++ toLE 4 16777216

/-- The whole file that `SaveBMP` writes for `image`. -/
def fileBytes (image : Image) : List Byte :=
  headerBytes image.width image.height (stride image.width * image.height) ++
    pixelData image (stride image.width - image.width * 3) image.height

/-- The colour that `LoadBMP` builds from the three bytes of `data` at offset
`off`: blue, green, red. -/
def colorAt (data : List Byte) (off : Nat) : Color :=
  ⟨data.getD (off + 2) 0, data.getD (off + 1) 0, data.getD off 0⟩

/-- The little-endian value of the `n` bytes of `bytes` at offset `off`. -/
def field (bytes : List Byte) (off n : Nat) : Nat :=
  fromLE ((bytes.drop off).take n)

/-! ## Sample values -/

/-- A file system with no file, in which every path can be opened for writing. -/
def emptyDisk : FileSystem := ⟨fun _ => none, fun _ => true⟩

/-- A file system whose only file is `file`, with content `bytes`. -/
def diskWith (file : Path) (bytes : List Byte) : FileSystem :=
  ⟨fun p => if p = file then some bytes else none, fun _ => true⟩

/-- The grid of one black pixel. -/
def black1x1 : Image := ⟨1, 1, [Color.Black], rfl⟩

/-- The grid of width 1 and height 2 whose row 0 is red and whose row 1 is blue. -/
def redOverBlue : Image := ⟨1, 2, [⟨255, 0, 0⟩, ⟨0, 0, 255⟩], rfl⟩

/-- A grid of width 0 and height 2. -/
def noColumns : Image := ⟨0, 2, [], rfl⟩

/-- The 62 bytes of a BMP file of width 1 and height 2: the header, then the
disk row `(255, 0, 0)` and one padding byte, then the disk row `(0, 0, 255)`
and one padding byte. -/
def redOverBlueFile : List Byte :=
  [66, 77, 8, 0, 0, 0, 0, 0, 0, 0, 54, 0, 0, 0,
   40, 0, 0, 0, 1, 0, 0, 0, 2, 0, 0, 0, 1, 0, 24, 0, 0, 0, 0, 0, 8, 0, 0, 0,
   35, 46, 0, 0, 35, 46, 0, 0, 0, 0, 0, 0, 0, 0, 0, 1,
   255, 0, 0, 0, 0, 0, 255, 0]

/-- The file `redOverBlueFile` with its bits-per-pixel field (offset 28) changed
from 24 to 8. -/
def bpp8File : List Byte :=
  [66, 77, 8, 0, 0, 0, 0, 0, 0, 0, 54, 0, 0, 0,
   40, 0, 0, 0, 1, 0, 0, 0, 2, 0, 0, 0, 1, 0, 8, 0, 0, 0, 0, 0, 8, 0, 0, 0,
   35, 46, 0, 0, 35, 46, 0, 0, 0, 0, 0, 0, 0, 0, 0, 1,
   255, 0, 0, 0, 0, 0, 255, 0]

/-- A valid 54-byte header that declares width `715827882` (bytes
`170, 170, 170, 42` at offset 18) and height 2. -/
def wideHeader : List Byte :=
  [66, 77, 0, 0, 0, 0, 0, 0, 0, 0, 54, 0, 0, 0,
   40, 0, 0, 0, 170, 170, 170, 42, 2, 0, 0, 0, 1, 0, 24, 0, 0, 0, 0, 0, 0, 0, 0, 0,
   35, 46, 0, 0, 35, 46, 0, 0, 0, 0, 0, 0, 0, 0, 0, 1]

/-- The header `wideHeader` followed by `2 * stride(715827882) = 2 * 2147483648`
bytes of pixel data: the first disk row is zero, the second starts with four
bytes of value 1. -/
def wideFile : List Byte :=
  wideHeader ++ (List.replicate 2147483648 0 ++ ([1, 1, 1, 1] ++ List.replicate 2147483644 0))

/-- The first 58 bytes of `redOverBlueFile`: the header and the first disk row;
the second disk row is missing. -/
def truncatedFile : List Byte :=
  [66, 77, 8, 0, 0, 0, 0, 0, 0, 0, 54, 0, 0, 0,
   40, 0, 0, 0, 1, 0, 0, 0, 2, 0, 0, 0, 1, 0, 24, 0, 0, 0, 0, 0, 8, 0, 0, 0,
   35, 46, 0, 0, 35, 46, 0, 0, 0, 0, 0, 0, 0, 0, 0, 1,
   255, 0, 0, 0]

/-- The grid of width 1 and height 2 whose two pixels are blue. -/
def blueOverBlue : Image := ⟨1, 2, [⟨0, 0, 255⟩, ⟨0, 0, 255⟩], rfl⟩

/-- The file `redOverBlueFile` with the reserved field (offset 6) set to 1, the
data-offset field (offset 10) set to 55 and the info-header size field (offset
14) set to 41. -/
def deviantFile : List Byte :=
  [66, 77, 8, 0, 0, 0, 1, 0, 0, 0, 55, 0, 0, 0,
   41, 0, 0, 0, 1, 0, 0, 0, 2, 0, 0, 0, 1, 0, 24, 0, 0, 0, 0, 0, 8, 0, 0, 0,
   35, 46, 0, 0, 35, 46, 0, 0, 0, 0, 0, 0, 0, 0, 0, 1,
   255, 0, 0, 0, 0, 0, 255, 0]

/-- The file `redOverBlueFile` with the file-size field (bytes 2..5) set to
`99, 1, 2, 3` and the data-offset field (bytes 10..13) set to `7, 7, 7, 7`. -/
def sizeOffsetFile : List Byte :=
  [66, 77, 99, 1, 2, 3, 0, 0, 0, 0, 7, 7, 7, 7,
   40, 0, 0, 0, 1, 0, 0, 0, 2, 0, 0, 0, 1, 0, 24, 0, 0, 0, 0, 0, 8, 0, 0, 0,
   35, 46, 0, 0, 35, 46, 0, 0, 0, 0, 0, 0, 0, 0, 0, 1,
   255, 0, 0, 0, 0, 0, 255, 0]

/-- The file `redOverBlueFile` with its two padding bytes (offsets 57 and 61)
set to 5 and 6. -/
def paddingFile : List Byte :=
  [66, 77, 8, 0, 0, 0, 0, 0, 0, 0, 54, 0, 0, 0,
   40, 0, 0, 0, 1, 0, 0, 0, 2, 0, 0, 0, 1, 0, 24, 0, 0, 0, 0, 0, 8, 0, 0, 0,
   35, 46, 0, 0, 35, 46, 0, 0, 0, 0, 0, 0, 0, 0, 0, 1,
   255, 0, 0, 5, 0, 0, 255, 6]

/-- The part that `wideFile` and `wideFilePadded` share: everything but the
last two bytes. -/
def widePrefix : List Byte :=
  wideHeader ++ (List.replicate 2147483648 0 ++ ([1, 1, 1, 1] ++ List.replicate 2147483642 0))

/-- The file `wideFile` with the byte at offset `54 + 2147483648 + 2147483646`,
the first padding byte of the second disk row, set to 9. -/
def wideFilePadded : List Byte :=
  wideHeader ++
    (List.replicate 2147483648 0 ++ ([1, 1, 1, 1] ++ (List.replicate 2147483642 0 ++ [9, 0])))

/-- The colour white. -/
def whiteColor : Color := ⟨255, 255, 255⟩

/-- The grid of width 715827882 and height 1 whose pixels are all black. -/
def wideRow : Image :=
  ⟨715827882, 1, List.replicate 715827882 Color.Black, by rw [List.length_replicate]⟩

/-- The grid of width 715827882 and height 2 whose pixels are all white. -/
def wideWhite : Image :=
  ⟨715827882, 2, List.replicate 1431655764 whiteColor, by rw [List.length_replicate]⟩

/-! ## Arithmetic of the stride -/


theorem int32_eq_some {v r : Int} : int32 v = some r ↔ (INT_MIN ≤ v ∧ v ≤ INT_MAX) ∧ r = v := by
  unfold int32
  split <;> simp_all [eq_comm]

theorem int32_of_range {v : Int} (h1 : -2147483648 ≤ v) (h2 : v ≤ 2147483647) :
    int32 v = some v := by
  unfold int32 INT_MIN INT_MAX
  rw [if_pos ⟨h1, h2⟩]

theorem stride_mod (W : Nat) : stride W % 4 = 0 := by
  unfold stride; omega

theorem stride_ge (W : Nat) : W * 3 ≤ stride W := by
  unfold stride; omega

theorem stride_lt (W : Nat) : stride W < W * 3 + 4 := by
  unfold stride; omega

/-- The `int` evaluation of `GetBMPStride`, when it is defined, is the exact
value of the formula. -/
theorem GetBMPStride_eq_some {w s : Int} (hw : 0 ≤ w) :
    GetBMPStride w = some s ↔ w ≤ 715827881 ∧ s = 4 * ((w * 3 + 3) / 4) := by
  unfold GetBMPStride
  simp only [Option.bind_eq_bind]
  constructor
  · intro h
    rcases hA : int32 (w * 3) with _ | a
    · rw [hA] at h; simp at h
    rw [hA] at h
    simp only [Option.some_bind] at h
    rcases hB : int32 (a + 3) with _ | b
    · rw [hB] at h; simp at h
    rw [hB] at h
    simp only [Option.some_bind] at h
    rw [int32_eq_some] at hA hB h
    unfold INT_MIN INT_MAX at *
    obtain ⟨_, rfl⟩ := hA
    obtain ⟨hb, rfl⟩ := hB
    obtain ⟨_, rfl⟩ := h
    refine ⟨by omega, ?_⟩
    rw [Int.tdiv_eq_ediv (by omega) (by decide)]
  · rintro ⟨h1, rfl⟩
    rw [int32_of_range (by omega) (by omega)]
    simp only [Option.some_bind]
    rw [int32_of_range (by omega) (by omega)]
    simp only [Option.some_bind]
    rw [Int.tdiv_eq_ediv (by omega) (by decide)]
    rw [int32_of_range (by omega) (by omega)]

theorem GetBMPStride_nat {W : Nat} {s : Int} :
    GetBMPStride (W : Int) = some s ↔ W ≤ 715827881 ∧ s = (stride W : Int) := by
  rw [GetBMPStride_eq_some (by omega)]
  unfold stride
  constructor
  · rintro ⟨h, rfl⟩
    refine ⟨by omega, ?_⟩
    push_cast
    rfl
  · rintro ⟨h, rfl⟩
    refine ⟨by omega, ?_⟩
    push_cast
    rfl


/-! ## The encoder writes `fileBytes` -/

theorem length_toLE (n v : Nat) : (toLE n v).length = n := by
  induction n generalizing v with
  | zero => rfl
  | succ n ih => simp [toLE, ih]

theorem length_pixelBytes (image : Image) (y x : Nat) : (pixelBytes image y x).length = 3 := rfl

theorem length_flatMap_pixelBytes (image : Image) (y k : Nat) :
    ((List.range k).flatMap (pixelBytes image y)).length = k * 3 := by
  induction k with
  | zero => rfl
  | succ k ih =>
    rw [List.range_succ, List.flatMap_append, List.length_append, ih]
    simp only [List.flatMap_cons, List.flatMap_nil, List.append_nil, length_pixelBytes]
    omega

theorem length_rowBytes (image : Image) (y : Nat) : (rowBytes image y).length = image.width * 3 :=
  length_flatMap_pixelBytes image y image.width

theorem set3 (L : List Byte) (a b c : Byte) (h : 3 ≤ L.length) :
    ((L.set 0 a).set 1 b).set 2 c = [a, b, c] ++ L.drop 3 := by
  match L, h with
  | _ :: _ :: _ :: _, _ => rfl

theorem set_append_length (A L : List Byte) (i : Nat) (v : Byte) :
    (A ++ L).set (A.length + i) v = A ++ L.set i v := by
  induction A with
  | nil => simp
  | cons a A ih =>
    simp only [List.cons_append, List.length_cons]
    rw [show A.length + 1 + i = (A.length + i) + 1 by omega, List.set_cons_succ, ih]

theorem saveLine_aux (image : Image) (y : Nat) (buff : List Byte) (k : Nat)
    (hk : k * 3 ≤ buff.length) :
    (List.range k).foldl
      (fun buff x =>
        ((buff.set (x * 3 + 0) (image.GetPixel x y).b).set
          (x * 3 + 1) (image.GetPixel x y).g).set
          (x * 3 + 2) (image.GetPixel x y).r)
      buff
      = (List.range k).flatMap (pixelBytes image y) ++ buff.drop (k * 3) := by
  induction k with
  | zero => simp
  | succ k ih =>
    rw [List.range_succ, List.foldl_append, ih (by omega), List.flatMap_append]
    simp only [List.foldl_cons, List.foldl_nil, List.flatMap_cons, List.flatMap_nil,
      List.append_nil]
    have hA := length_flatMap_pixelBytes image y k
    rw [← hA, set_append_length, set_append_length, set_append_length, hA,
      set3 _ _ _ _ (by rw [List.length_drop]; omega), List.drop_drop]
    simp only [pixelBytes, List.append_assoc]
    congr 2
    congr 1
    omega

theorem saveLine_eq (image : Image) (y : Nat) (buff : List Byte)
    (h : buff.length = image.width * 3) : saveLine image y buff = rowBytes image y := by
  unfold saveLine rowBytes
  rw [saveLine_aux image y buff image.width (by omega), ← h, List.drop_length, List.append_nil]

theorem saveRows_eq (image : Image) (pad : Nat) (n : Nat) (buff ofs : List Byte)
    (h : buff.length = image.width * 3) :
    (saveRows image (image.width * 3) pad (List.replicate pad 0) n (buff, ofs)).2
      = ofs ++ pixelData image pad n := by
  induction n generalizing buff ofs with
  | zero => simp [saveRows, pixelData]
  | succ n ih =>
    simp only [saveRows, pixelData]
    rw [ih _ _ (by rw [saveLine_eq image n buff h, length_rowBytes]), saveLine_eq image n buff h]
    have h1 : (rowBytes image n).take (image.width * 3) = rowBytes image n := by
      rw [List.take_of_length_le (by rw [length_rowBytes])]
    have h2 : (List.replicate pad (0 : Byte)).take pad = List.replicate pad 0 := by
      rw [List.take_of_length_le (by simp)]
    rw [h1, h2]
    simp [List.append_assoc]


theorem toUInt32_natCast (n : Nat) (h : n < 4294967296) : toUInt32 (n : Int) = n := by
  unfold toUInt32
  omega

theorem store_store (fs : FileSystem) (file : Path) (a b : List Byte) :
    (fs.store file a).store file b = fs.store file b := by
  simp [FileSystem.store]

theorem files_store (fs : FileSystem) (file : Path) (a : List Byte) :
    (fs.store file a).files file = some a := by
  simp [FileSystem.store]

theorem valid_iff (image : Image) : image.valid = true ↔ 0 < image.width ∧ 0 < image.height := by
  simp [Image.valid]

/-- What `SaveBMP` does on a non-empty image and a path that can be opened:
it is defined exactly when `stride * height` fits an `int`, and then writes
`fileBytes image`. -/
theorem SaveBMP_run (fs : FileSystem) (file : Path) (image : Image)
    (hv : image.valid = true) (hw : fs.writable file = true) :
    SaveBMP fs file image =
      if stride image.width * image.height ≤ 2147483647 then
        some (true, fs.store file (fileBytes image))
      else none := by
  obtain ⟨hW, hH⟩ := (valid_iff image).1 hv
  have hs1 := stride_ge image.width
  have hs2 := stride_lt image.width
  unfold SaveBMP
  simp only [hv, Bool.not_true, Bool.false_eq_true, if_false, FileSystem.openWrite, hw, if_true,
    Image.GetWidth, Image.GetHeight, Option.bind_eq_bind]
  by_cases hle : stride image.width * image.height ≤ 2147483647
  · have hH2 : image.height ≤ stride image.width * image.height :=
      Nat.le_mul_of_pos_left _ (by omega)
    have hW2 : stride image.width ≤ stride image.width * image.height :=
      Nat.le_mul_of_pos_right _ hH
    have hs3 := stride_mod image.width
    have hW3 : image.width ≤ 715827881 := by omega
    rw [if_pos hle, (GetBMPStride_nat).2 ⟨hW3, rfl⟩]
    simp only [Option.some_bind]
    have e1 : int32 ((stride image.width : Int) * (image.height : Int))
        = some ((stride image.width * image.height : Nat) : Int) := by
      rw [← Int.natCast_mul, int32_of_range (by omega) (by omega)]
    have e2 : int32 ((image.width : Int) * 3) = some ((image.width * 3 : Nat) : Int) := by
      rw [show (image.width : Int) * 3 = ((image.width * 3 : Nat) : Int) by push_cast; rfl,
        int32_of_range (by omega) (by omega)]
    have e3 : int32 ((stride image.width : Int) - ((image.width * 3 : Nat) : Int))
        = some ((stride image.width - image.width * 3 : Nat) : Int) := by
      rw [int32_of_range (by omega) (by omega)]
      congr 1
      omega
    rw [e1]
    simp only [Option.some_bind]
    rw [e2]
    simp only [Option.some_bind, mkVector, Int.natCast_nonneg, if_true, Int.toNat_ofNat]
    rw [e3]
    simp only [Option.some_bind, Int.natCast_nonneg, if_true, Int.toNat_ofNat]
    rw [saveRows_eq image _ _ _ _ (by simp), store_store]
    rw [toUInt32_natCast _ (by omega), toUInt32_natCast _ (by omega), toUInt32_natCast _ (by omega)]
    rfl
  · rw [if_neg hle]
    by_cases hW3 : image.width ≤ 715827881
    · rw [(GetBMPStride_nat).2 ⟨hW3, rfl⟩]
      simp only [Option.some_bind]
      have e1 : int32 ((stride image.width : Int) * (image.height : Int)) = none := by
        unfold int32 INT_MIN INT_MAX
        rw [if_neg]
        rintro ⟨_, h2⟩
        apply hle
        exact_mod_cast h2
      rw [e1]
      rfl
    · have e0 : GetBMPStride (image.width : Int) = none := by
        rcases h : GetBMPStride (image.width : Int) with _ | s
        · rfl
        · exact absurd ((GetBMPStride_nat).1 h).1 hW3
      rw [e0]
      rfl


theorem SaveBMP_true {fs fs' : FileSystem} {file : Path} {image : Image}
    (h : SaveBMP fs file image = some (true, fs')) :
    (0 < image.width ∧ 0 < image.height) ∧ fs.writable file = true ∧
      stride image.width * image.height ≤ 2147483647 ∧
      fs' = fs.store file (fileBytes image) := by
  by_cases hv : image.valid = true
  · by_cases hw : fs.writable file = true
    · rw [SaveBMP_run fs file image hv hw] at h
      split at h
      · rename_i hle
        simp only [Option.some.injEq, Prod.mk.injEq, true_and] at h
        exact ⟨(valid_iff image).1 hv, hw, hle, h.symm⟩
      · simp at h
    · unfold SaveBMP at h
      simp [hv, FileSystem.openWrite, hw] at h
  · unfold SaveBMP at h
    simp [hv] at h

/-! ## Lengths, offsets and header fields of `fileBytes` -/

theorem fromLE_toLE (n v : Nat) : fromLE (toLE n v) = v % 256 ^ n := by
  induction n generalizing v with
  | zero => simp [toLE, fromLE, Nat.mod_one]
  | succ n ih =>
    simp only [toLE, fromLE, ih, Fin.ofNat]
    rw [Nat.pow_succ, Nat.mul_comm (256 ^ n) 256, Nat.mod_mul]

theorem length_headerBytes (W H size : Nat) : (headerBytes W H size).length = 54 := by
  simp [headerBytes, length_toLE]

theorem length_pixelData (image : Image) (pad n : Nat) :
    (pixelData image pad n).length = n * (image.width * 3 + pad) := by
  induction n with
  | zero => simp [pixelData]
  | succ n ih =>
    simp only [pixelData, List.length_append, length_rowBytes, List.length_replicate, ih]
    ring

theorem stride_split (W : Nat) : W * 3 + (stride W - W * 3) = stride W := by
  have := stride_ge W
  omega

theorem length_fileBytes (image : Image) :
    (fileBytes image).length = 54 + stride image.width * image.height := by
  unfold fileBytes
  rw [List.length_append, length_headerBytes, length_pixelData, stride_split, Nat.mul_comm]

theorem pixelData_drop (image : Image) (pad n y : Nat) (hy : y < n) :
    (pixelData image pad n).drop ((n - 1 - y) * (image.width * 3 + pad))
      = rowBytes image y ++ List.replicate pad 0 ++ pixelData image pad y := by
  induction n with
  | zero => omega
  | succ n ih =>
    rcases Nat.lt_succ_iff_lt_or_eq.1 hy with h | h
    · have e : (n + 1 - 1 - y) * (image.width * 3 + pad)
          = (rowBytes image n ++ List.replicate pad (0 : Byte)).length
            + (n - 1 - y) * (image.width * 3 + pad) := by
        rw [List.length_append, length_rowBytes, List.length_replicate,
          show n + 1 - 1 - y = (n - 1 - y) + 1 by omega]
        ring
      rw [e, pixelData, ← List.drop_drop, List.drop_left, ih h]
    · subst h
      simp [pixelData]

theorem fileBytes_drop (image : Image) (y : Nat) (hy : y < image.height) :
    (fileBytes image).drop (54 + (image.height - 1 - y) * stride image.width)
      = rowBytes image y ++ List.replicate (stride image.width - image.width * 3) 0 ++
          pixelData image (stride image.width - image.width * 3) y := by
  unfold fileBytes
  rw [← List.drop_drop]
  have h := length_headerBytes image.width image.height (stride image.width * image.height)
  rw [show (54 : Nat) = (headerBytes image.width image.height
      (stride image.width * image.height)).length from h.symm, List.drop_left]
  have := pixelData_drop image (stride image.width - image.width * 3) image.height y hy
  rw [stride_split] at this
  exact this

theorem flatMap_pixelBytes_getElem? (image : Image) (y k x c : Nat) (hx : x < k) (hc : c < 3) :
    ((List.range k).flatMap (pixelBytes image y))[x * 3 + c]? = (pixelBytes image y x)[c]? := by
  induction k with
  | zero => omega
  | succ k ih =>
    rw [List.range_succ, List.flatMap_append]
    have hl := length_flatMap_pixelBytes image y k
    rcases Nat.lt_succ_iff_lt_or_eq.1 hx with h | h
    · rw [List.getElem?_append_left (by omega), ih h]
    · subst h
      rw [List.getElem?_append_right (by omega), hl]
      simp only [List.flatMap_cons, List.flatMap_nil, List.append_nil]
      congr 1
      omega

theorem rowBytes_getElem? (image : Image) (y x c : Nat) (hx : x < image.width) (hc : c < 3) :
    (rowBytes image y)[x * 3 + c]? = (pixelBytes image y x)[c]? :=
  flatMap_pixelBytes_getElem? image y image.width x c hx hc

/-- The byte of the written file that holds channel `c` of pixel `(x, y)`. -/
theorem fileBytes_pixel (image : Image) (x y c : Nat) (hx : x < image.width)
    (hy : y < image.height) (hc : c < 3) :
    (fileBytes image)[54 + (image.height - 1 - y) * stride image.width + x * 3 + c]?
      = (pixelBytes image y x)[c]? := by
  have h := fileBytes_drop image y hy
  have e : (fileBytes image)[54 + (image.height - 1 - y) * stride image.width + x * 3 + c]?
      = ((fileBytes image).drop (54 + (image.height - 1 - y) * stride image.width))[x * 3 + c]? := by
    rw [List.getElem?_drop]
    congr 1
    omega
  rw [e, h, List.append_assoc, List.getElem?_append_left (by rw [length_rowBytes]; omega),
    rowBytes_getElem? image y x c hx hc]


theorem toLE_four (v : Nat) : toLE 4 v =
    [Fin.ofNat v, Fin.ofNat (v / 256), Fin.ofNat (v / 256 / 256), Fin.ofNat (v / 256 / 256 / 256)] := rfl

theorem toLE_two (v : Nat) : toLE 2 v = [Fin.ofNat v, Fin.ofNat (v / 256)] := rfl

theorem fileBytes_slices (image : Image) :
    (fileBytes image).take 2 = [66, 77] ∧
    ((fileBytes image).drop 2).take 4 = toLE 4 (stride image.width * image.height) ∧
    ((fileBytes image).drop 6).take 4 = toLE 4 0 ∧
    ((fileBytes image).drop 10).take 4 = toLE 4 54 ∧
    ((fileBytes image).drop 14).take 4 = toLE 4 40 ∧
    ((fileBytes image).drop 18).take 4 = toLE 4 image.width ∧
    ((fileBytes image).drop 22).take 4 = toLE 4 image.height ∧
    ((fileBytes image).drop 26).take 2 = toLE 2 1 ∧
    ((fileBytes image).drop 28).take 2 = toLE 2 24 ∧
    ((fileBytes image).drop 30).take 4 = toLE 4 0 ∧
    ((fileBytes image).drop 34).take 4 = toLE 4 (stride image.width * image.height) ∧
    ((fileBytes image).drop 38).take 4 = toLE 4 11811 ∧
    ((fileBytes image).drop 42).take 4 = toLE 4 11811 ∧
    ((fileBytes image).drop 46).take 4 = toLE 4 0 ∧
    ((fileBytes image).drop 50).take 4 = toLE 4 16777216 := by
  simp only [fileBytes, headerBytes, toLE_four, toLE_two, List.cons_append, List.nil_append,
    List.drop_succ_cons, List.drop_zero, List.take_succ_cons, List.take_zero, and_self]

theorem field_fileBytes_header (image : Image) :
    (fileBytes image).take 2 = [66, 77] ∧
    field (fileBytes image) 2 4 = stride image.width * image.height % 4294967296 ∧
    field (fileBytes image) 6 4 = 0 ∧
    field (fileBytes image) 10 4 = 54 ∧
    field (fileBytes image) 14 4 = 40 ∧
    field (fileBytes image) 18 4 = image.width % 4294967296 ∧
    field (fileBytes image) 22 4 = image.height % 4294967296 ∧
    field (fileBytes image) 26 2 = 1 ∧
    field (fileBytes image) 28 2 = 24 ∧
    field (fileBytes image) 30 4 = 0 ∧
    field (fileBytes image) 34 4 = stride image.width * image.height % 4294967296 ∧
    field (fileBytes image) 38 4 = 11811 ∧
    field (fileBytes image) 42 4 = 11811 ∧
    field (fileBytes image) 46 4 = 0 ∧
    field (fileBytes image) 50 4 = 16777216 := by
  obtain ⟨h0, h2, h6, h10, h14, h18, h22, h26, h28, h30, h34, h38, h42, h46, h50⟩ :=
    fileBytes_slices image
  unfold field
  rw [h2, h6, h10, h14, h18, h22, h26, h28, h30, h34, h38, h42, h46, h50]
  simp only [fromLE_toLE]
  exact ⟨h0, by norm_num, by norm_num, by norm_num, by norm_num, by norm_num, by norm_num,
    by norm_num, by norm_num, by norm_num, by norm_num, by norm_num, by norm_num, by norm_num,
    by norm_num⟩

/-! ## The decoder: header -/

theorem read_ok (d buf : List Byte) (n : Nat) (h : n ≤ d.length) :
    ifstream.read ⟨d, true⟩ buf n = (d.take n ++ buf.drop n, ⟨d.drop n, true⟩) := by
  simp [ifstream.read, h]

theorem readScalar_ok (d : List Byte) (n : Nat) (h : n ≤ d.length) :
    ifstream.readScalar ⟨d, true⟩ n = (some (fromLE (d.take n)), ⟨d.drop n, true⟩) := by
  simp [ifstream.readScalar, h]

theorem readInfoHeader_ok (d : List Byte) (h : 40 ≤ d.length) :
    readInfoHeader ⟨d, true⟩ =
      (⟨some (field d 0 4), some (toInt32 (field d 4 4)), some (toInt32 (field d 8 4)),
        some (field d 12 2), some (field d 14 2), some (field d 16 4), some (field d 20 4),
        some (toInt32 (field d 24 4)), some (toInt32 (field d 28 4)),
        some (toInt32 (field d 32 4)), some (toInt32 (field d 36 4))⟩, ⟨d.drop 40, true⟩) := by
  unfold readInfoHeader
  rw [readScalar_ok _ _ (by omega)]
  simp only []
  rw [readScalar_ok _ _ (by rw [List.length_drop]; omega)]
  simp only [List.drop_drop]
  rw [readScalar_ok _ _ (by rw [List.length_drop]; omega)]
  simp only [List.drop_drop]
  rw [readScalar_ok _ _ (by rw [List.length_drop]; omega)]
  simp only [List.drop_drop]
  rw [readScalar_ok _ _ (by rw [List.length_drop]; omega)]
  simp only [List.drop_drop]
  rw [readScalar_ok _ _ (by rw [List.length_drop]; omega)]
  simp only [List.drop_drop]
  rw [readScalar_ok _ _ (by rw [List.length_drop]; omega)]
  simp only [List.drop_drop]
  rw [readScalar_ok _ _ (by rw [List.length_drop]; omega)]
  simp only [List.drop_drop]
  rw [readScalar_ok _ _ (by rw [List.length_drop]; omega)]
  simp only [List.drop_drop]
  rw [readScalar_ok _ _ (by rw [List.length_drop]; omega)]
  simp only [List.drop_drop]
  rw [readScalar_ok _ _ (by rw [List.length_drop]; omega)]
  simp only [List.drop_drop, field, List.drop_zero, Option.map_some']


/-- The checks of lines 176-190 on a complete header, as one condition. -/
theorem LoadBMP_body_complete (bytes : List Byte) (h : 54 ≤ bytes.length) :
    LoadBMP.body ⟨bytes, true⟩ =
      if bytes.take 2 ≠ BMP_SIGN then some Image.empty
      else if field bytes 26 2 ≠ 1 ∨ field bytes 28 2 ≠ 24 ∨ field bytes 30 4 ≠ 0 then
        some Image.empty
      else if toInt32 (field bytes 38 4) ≠ 11811 ∨ toInt32 (field bytes 42 4) ≠ 11811 then
        some Image.empty
      else if toInt32 (field bytes 46 4) ≠ 0 ∨ toInt32 (field bytes 50 4) ≠ 16777216 then
        some Image.empty
      else
        LoadBMP.readPixels ⟨bytes.drop 54, true⟩ (toInt32 (field bytes 18 4))
          (toInt32 (field bytes 22 4)) := by
  unfold LoadBMP.body
  rw [read_ok _ _ _ (by omega)]
  simp only []
  rw [readScalar_ok _ _ (by rw [List.length_drop]; omega)]
  simp only [List.drop_drop]
  rw [readScalar_ok _ _ (by rw [List.length_drop]; omega)]
  simp only [List.drop_drop]
  rw [readScalar_ok _ _ (by rw [List.length_drop]; omega)]
  simp only [List.drop_drop]
  rw [readInfoHeader_ok _ (by rw [List.length_drop]; omega)]
  simp only [field, List.drop_drop, List.drop_succ_cons, List.drop_nil, List.append_nil]
  by_cases hs : bytes.take 2 = BMP_SIGN
  · simp only [hs, ne_eq, not_true_eq_false, if_false]
    simp only [neq, lor, BMP_LEVELS_NUM, BMP_BITS_PER_PIXEL, BMP_COMPRESS_TYPE,
      BMP_HOR_AND_VER_PIXEL_PER_METER, BMP_USED_COLORS, BMP_SIGNIFICENT_COLORS, Option.map_some',
      Option.bind_eq_bind, Option.some_bind]
    simp only [Nat.reduceAdd]
    generalize fromLE (List.take 2 (List.drop 26 bytes)) = a
    generalize fromLE (List.take 2 (List.drop 28 bytes)) = b
    generalize fromLE (List.take 4 (List.drop 30 bytes)) = c
    generalize toInt32 (fromLE (List.take 4 (List.drop 38 bytes))) = d
    generalize toInt32 (fromLE (List.take 4 (List.drop 42 bytes))) = e
    generalize toInt32 (fromLE (List.take 4 (List.drop 46 bytes))) = f
    generalize toInt32 (fromLE (List.take 4 (List.drop 50 bytes))) = g
    by_cases ha : a = 1
    · by_cases hb : b = 24
      · by_cases hc : c = 0
        · by_cases hd : d = 11811
          · by_cases he : e = 11811
            · by_cases hf : f = 0
              · by_cases hg : g = 16777216
                · simp [ha, hb, hc, hd, he, hf, hg]
                · simp [ha, hb, hc, hd, he, hf, hg]
              · simp [ha, hb, hc, hd, he, hf]
            · simp [ha, hb, hc, hd, he]
          · simp [ha, hb, hc, hd]
        · simp [ha, hb, hc]
      · simp [ha, hb]
    · simp [ha]
  · simp only [ne_eq, hs, not_false_eq_true, if_true]


theorem read_sign (bytes : List Byte) (h : bytes.take 2 ≠ [66, 77]) :
    (ifstream.read ⟨bytes, true⟩ [0, 0] 2).1 ≠ BMP_SIGN := by
  match bytes, h with
  | [], _ => decide
  | [a], _ =>
    simp only [ifstream.read, BMP_SIGN]
    simp
  | a :: b :: t, h =>
    simp only [ifstream.read, BMP_SIGN]
    simpa using h

theorem LoadBMP_body_bad_sign (bytes : List Byte) (h : bytes.take 2 ≠ [66, 77]) :
    LoadBMP.body ⟨bytes, true⟩ = some Image.empty := by
  have hs := read_sign bytes h
  unfold LoadBMP.body
  rcases hr : ifstream.read ⟨bytes, true⟩ [0, 0] 2 with ⟨sign, ifs1⟩
  rw [hr] at hs
  simp only []
  rcases ifs1.readScalar 4 with ⟨_, ifs2⟩
  simp only []
  rcases ifs2.readScalar 4 with ⟨_, ifs3⟩
  simp only []
  rcases ifs3.readScalar 4 with ⟨_, ifs4⟩
  simp only [] at hs ⊢
  rw [if_pos hs]

theorem LoadBMP_of_file (fs : FileSystem) (file : Path) (bytes : List Byte)
    (h : fs.files file = some bytes) : LoadBMP fs file = LoadBMP.body ⟨bytes, true⟩ := by
  simp [LoadBMP, FileSystem.openRead, h]

theorem fromLE_lt (l : List Byte) : fromLE l < 256 ^ l.length := by
  induction l with
  | nil => simp [fromLE]
  | cons b l ih =>
    have hb := b.isLt
    simp only [fromLE, List.length_cons, Nat.pow_succ]
    omega

theorem field_lt_four (bytes : List Byte) (off : Nat) : field bytes off 4 < 4294967296 := by
  unfold field
  have h := fromLE_lt ((bytes.drop off).take 4)
  have hl : ((bytes.drop off).take 4).length ≤ 4 := by
    rw [List.length_take]; omega
  calc fromLE ((bytes.drop off).take 4) < 256 ^ ((bytes.drop off).take 4).length := h
    _ ≤ 256 ^ 4 := Nat.pow_le_pow_right (by decide) hl
    _ = 4294967296 := by norm_num

theorem toInt32_eq_of_small (v c : Nat) (hv : v < 4294967296) (hc : c < 2147483648) :
    toInt32 v = (c : Int) → v = c := by
  unfold toInt32
  split <;> omega

/-! ## The decoder: pixel rows -/

theorem modifyPixel_width (image : Image) (x y : Nat) (f : Color → Color) :
    (image.modifyPixel x y f).width = image.width := rfl

theorem modifyPixel_height (image : Image) (x y : Nat) (f : Color → Color) :
    (image.modifyPixel x y f).height = image.height := rfl

theorem modifyPixel_pixels (image : Image) (x y : Nat) (f : Color → Color) :
    (image.modifyPixel x y f).pixels = image.pixels.modify f (y * image.width + x) := rfl

/-- The three assignments of the inner loop of `LoadBMP` to one pixel. -/
theorem loadPixel_getElem? (buff : List Byte) (image : Image) (x y i : Nat) :
    (((image.modifyPixel x y (fun c => { c with b := buff.getD (x * 3 + 0) 0 })).modifyPixel
        x y (fun c => { c with g := buff.getD (x * 3 + 1) 0 })).modifyPixel
        x y (fun c => { c with r := buff.getD (x * 3 + 2) 0 })).pixels[i]?
      = (image.pixels[i]?).map
          (fun c => if y * image.width + x = i then colorAt buff (x * 3) else c) := by
  simp only [modifyPixel_pixels, modifyPixel_width, List.getElem?_modify, Option.map_eq_map,
    Option.map_map]
  congr 1
  funext c
  simp only [Function.comp]
  split <;> simp [colorAt]

theorem loadLine_aux (buff : List Byte) (y : Nat) (result : Image) (k : Nat) :
    ((List.range k).foldl
      (fun result x =>
        ((result.modifyPixel x y (fun c => { c with b := buff.getD (x * 3 + 0) 0 })).modifyPixel
          x y (fun c => { c with g := buff.getD (x * 3 + 1) 0 })).modifyPixel
          x y (fun c => { c with r := buff.getD (x * 3 + 2) 0 }))
      result).width = result.width ∧
    ((List.range k).foldl
      (fun result x =>
        ((result.modifyPixel x y (fun c => { c with b := buff.getD (x * 3 + 0) 0 })).modifyPixel
          x y (fun c => { c with g := buff.getD (x * 3 + 1) 0 })).modifyPixel
          x y (fun c => { c with r := buff.getD (x * 3 + 2) 0 }))
      result).height = result.height ∧
    ∀ i, ((List.range k).foldl
      (fun result x =>
        ((result.modifyPixel x y (fun c => { c with b := buff.getD (x * 3 + 0) 0 })).modifyPixel
          x y (fun c => { c with g := buff.getD (x * 3 + 1) 0 })).modifyPixel
          x y (fun c => { c with r := buff.getD (x * 3 + 2) 0 }))
      result).pixels[i]?
      = (result.pixels[i]?).map
          (fun c => if y * result.width ≤ i ∧ i < y * result.width + k then
            colorAt buff ((i - y * result.width) * 3) else c) := by
  induction k with
  | zero =>
    refine ⟨rfl, rfl, fun i => ?_⟩
    simp only [List.range_zero, List.foldl_nil]
    rw [show (fun c : Color => if y * result.width ≤ i ∧ i < y * result.width + 0 then
        colorAt buff ((i - y * result.width) * 3) else c) = id from by
      funext c
      rw [if_neg (by omega)]
      rfl]
    simp
  | succ k ih =>
    obtain ⟨hw, hh, hp⟩ := ih
    rw [List.range_succ, List.foldl_append]
    simp only [List.foldl_cons, List.foldl_nil]
    refine ⟨by simp only [modifyPixel_width]; exact hw,
      by simp only [modifyPixel_height]; exact hh, fun i => ?_⟩
    rw [loadPixel_getElem?, hp i, hw, Option.map_map]
    congr 1
    funext c
    simp only [Function.comp]
    by_cases h1 : y * result.width + k = i
    · subst h1
      rw [if_pos rfl, if_pos (by omega)]
      congr 1
      omega
    · rw [if_neg h1]
      by_cases h2 : y * result.width ≤ i ∧ i < y * result.width + k
      · rw [if_pos h2, if_pos (by omega)]
      · rw [if_neg h2, if_neg (by omega)]

theorem loadLine_spec (buff : List Byte) (y : Nat) (result : Image) :
    (loadLine buff y result).width = result.width ∧
    (loadLine buff y result).height = result.height ∧
    ∀ i, (loadLine buff y result).pixels[i]?
      = (result.pixels[i]?).map
          (fun c => if y * result.width ≤ i ∧ i < y * result.width + result.width then
            colorAt buff ((i - y * result.width) * 3) else c) :=
  loadLine_aux buff y result result.width


theorem getD_drop (D : List Byte) (s j : Nat) : (D.drop s).getD j 0 = D.getD (s + j) 0 := by
  simp [List.getD_eq_getElem?_getD, List.getElem?_drop]

theorem colorAt_drop (D : List Byte) (s off : Nat) :
    colorAt (D.drop s) off = colorAt D (s + off) := by
  simp only [colorAt, getD_drop, Nat.add_assoc]

theorem getD_take_append (D B : List Byte) (n j : Nat) (hn : n ≤ D.length) (hj : j < n) :
    (D.take n ++ B).getD j 0 = D.getD j 0 := by
  simp only [List.getD_eq_getElem?_getD]
  rw [List.getElem?_append_left (by rw [List.length_take]; omega), List.getElem?_take_of_lt hj]

theorem colorAt_take_append (D B : List Byte) (n off : Nat) (hn : n ≤ D.length)
    (hoff : off + 2 < n) : colorAt (D.take n ++ B) off = colorAt D off := by
  simp only [colorAt]
  rw [getD_take_append D B n (off + 2) hn hoff, getD_take_append D B n (off + 1) hn (by omega),
    getD_take_append D B n off hn (by omega)]

theorem loadRows_spec (W pad : Nat) (n : Nat) (st : LoadState) (D : List Byte)
    (hifs : st.ifs = ⟨D, true⟩) (hD : n * (W * 3 + pad) ≤ D.length)
    (hW : st.result.width = W) (hbuf : st.buff.length = W * 3)
    (hpad : st.padding_buff.length = pad) :
    (loadRows (W * 3) pad n st).result.width = W ∧
    (loadRows (W * 3) pad n st).result.height = st.result.height ∧
    (∀ y x, y < n → x < W →
      (loadRows (W * 3) pad n st).result.pixels[y * W + x]?
        = (st.result.pixels[y * W + x]?).map
            (fun _ => colorAt D ((n - 1 - y) * (W * 3 + pad) + x * 3))) ∧
    (∀ i, n * W ≤ i →
      (loadRows (W * 3) pad n st).result.pixels[i]? = st.result.pixels[i]?) := by
  induction n generalizing st D with
  | zero =>
    refine ⟨hW, rfl, fun y x hy _ => absurd hy (by omega), fun i _ => rfl⟩
  | succ n ih =>
    have hS : (n + 1) * (W * 3 + pad) = (W * 3 + pad) + n * (W * 3 + pad) := by ring
    have hlen1 : W * 3 ≤ D.length := by omega
    simp only [loadRows, hifs]
    rw [read_ok _ _ _ hlen1]
    simp only []
    rw [read_ok _ _ _ (by rw [List.length_drop]; omega)]
    simp only [List.drop_drop]
    obtain ⟨lw, lh, lp⟩ := loadLine_spec (D.take (W * 3) ++ st.buff.drop (W * 3)) n st.result
    obtain ⟨h1, h2, h3, h4⟩ := ih
      ⟨⟨D.drop (W * 3 + pad), true⟩, D.take (W * 3) ++ st.buff.drop (W * 3),
        (D.drop (W * 3)).take pad ++ st.padding_buff.drop pad,
        loadLine (D.take (W * 3) ++ st.buff.drop (W * 3)) n st.result⟩
      (D.drop (W * 3 + pad)) rfl (by rw [List.length_drop]; omega) (by rw [lw, hW])
      (by simp only [List.length_append, List.length_take, List.length_drop]; omega)
      (by simp only [List.length_append, List.length_take, List.length_drop]; omega)
    simp only [] at h1 h2 h3 h4
    refine ⟨h1, h2.trans lh, ?_, ?_⟩
    · intro y x hy hx
      rcases Nat.lt_succ_iff_lt_or_eq.1 hy with hlt | heq
      · rw [h3 y x hlt hx, lp, Option.map_map]
        congr 1
        funext c
        simp only [Function.comp]
        rw [colorAt_drop]
        congr 1
        have : n + 1 - 1 - y = (n - 1 - y) + 1 := by omega
        rw [this]
        ring
      · subst heq
        rw [h4 _ (by omega), lp, hW]
        congr 1
        funext c
        rw [if_pos (by omega)]
        rw [colorAt_take_append _ _ _ _ hlen1 (by omega)]
        congr 1
        simp
    · intro i hi
      have hi2 : n * W + W ≤ i := by
        have : (n + 1) * W = n * W + W := by ring
        omega
      rw [h4 i (by omega), lp, hW]
      rw [show (fun c : Color => if n * W ≤ i ∧ i < n * W + W then
          colorAt (D.take (W * 3) ++ st.buff.drop (W * 3)) ((i - n * W) * 3) else c) = id from by
        funext c
        rw [if_neg (by omega)]
        rfl]
      simp


theorem idx_lt {W H x y : Nat} (hx : x < W) (hy : y < H) : y * W + x < W * H := by
  have h1 : (y + 1) * W ≤ H * W := Nat.mul_le_mul_right W hy
  have h2 : (y + 1) * W = y * W + W := by ring
  have h3 : H * W = W * H := Nat.mul_comm H W
  omega

/-- The pixel rows of a file with enough data: the result of lines 192-214. -/
theorem readPixels_spec (D : List Byte) (W H : Nat) (hW : W ≤ 715827881)
    (hD : H * stride W ≤ D.length) :
    ∃ img, LoadBMP.readPixels ⟨D, true⟩ (W : Int) (H : Int) = some img ∧
      img.width = W ∧ img.height = H ∧
      ∀ x y, x < W → y < H →
        img.GetPixel x y = colorAt D ((H - 1 - y) * stride W + x * 3) := by
  have hs1 := stride_ge W
  have hs2 := stride_lt W
  have hsp := stride_split W
  have e0 : Image.create (W : Int) (H : Int) Color.Black
      = some ⟨W, H, List.replicate (W * H) Color.Black, by simp⟩ := by
    simp [Image.create]
  have e2 : int32 ((W : Int) * 3) = some ((W * 3 : Nat) : Int) := by
    rw [show (W : Int) * 3 = ((W * 3 : Nat) : Int) by push_cast; rfl,
      int32_of_range (by omega) (by omega)]
  have e3 : int32 ((stride W : Int) - ((W * 3 : Nat) : Int))
      = some ((stride W - W * 3 : Nat) : Int) := by
    rw [int32_of_range (by omega) (by omega)]
    congr 1
    omega
  obtain ⟨h1, h2, h3, -⟩ := loadRows_spec W (stride W - W * 3) H
    ⟨⟨D, true⟩, List.replicate (W * 3) 0, List.replicate (stride W - W * 3) 0,
      ⟨W, H, List.replicate (W * H) Color.Black, by simp⟩⟩ D rfl (by rw [hsp]; exact hD) rfl
    (by simp) (by simp)
  refine ⟨_, ?_, h1, h2, ?_⟩
  · unfold LoadBMP.readPixels
    simp only [Option.bind_eq_bind, e0, Option.some_bind, e2, (GetBMPStride_nat).2 ⟨hW, rfl⟩, e3,
      mkVector, Int.natCast_nonneg, if_true, Int.toNat_ofNat]
  · intro x y hx hy
    unfold Image.GetPixel
    rw [h1, List.getD_eq_getElem?_getD, h3 y x hy hx, hsp]
    have : (List.replicate (W * H) Color.Black)[y * W + x]? = some Color.Black := by
      rw [List.getElem?_replicate, if_pos (idx_lt hx hy)]
    simp only [this, Option.map_some', Option.getD_some]

theorem readPixels_defined {ifs : ifstream} {W : Nat} {h : Int} {img : Image}
    (hr : LoadBMP.readPixels ifs (W : Int) h = some img) : W ≤ 715827881 := by
  unfold LoadBMP.readPixels at hr
  simp only [Option.bind_eq_bind, Option.bind_eq_some] at hr
  obtain ⟨_, _, _, _, s, hs, _⟩ := hr
  exact ((GetBMPStride_nat).1 hs).1


theorem toInt32_natCast {v W : Nat} (h : toInt32 v = (W : Int)) (hv : v < 4294967296) :
    v = W := by
  unfold toInt32 at h
  split at h <;> omega

theorem getElem?_of_colorAt (D : List Byte) (off : Nat) (h : off + 2 < D.length) :
    D[off]? = some (colorAt D off).b ∧ D[off + 1]? = some (colorAt D off).g ∧
      D[off + 2]? = some (colorAt D off).r := by
  simp only [colorAt, List.getD_eq_getElem?_getD]
  rw [List.getElem?_eq_getElem (by omega), List.getElem?_eq_getElem (by omega),
    List.getElem?_eq_getElem h]
  simp

/-- What `LoadBMP` returns for a file with a valid header, positive dimensions
within the range of the stride computation, and all its pixel data. -/
theorem LoadBMP_run (fs : FileSystem) (file : Path) (bytes : List Byte) (W H : Nat)
    (hfile : fs.files file = some bytes)
    (hsign : bytes.take 2 = [66, 77])
    (hplanes : field bytes 26 2 = 1) (hbits : field bytes 28 2 = 24)
    (hcompress : field bytes 30 4 = 0)
    (hhor : field bytes 38 4 = 11811) (hver : field bytes 42 4 = 11811)
    (hused : field bytes 46 4 = 0) (hsignificant : field bytes 50 4 = 16777216)
    (hwidth : toInt32 (field bytes 18 4) = (W : Int))
    (hheight : toInt32 (field bytes 22 4) = (H : Int))
    (hmax : W ≤ 715827881)
    (hlen : 54 + stride W * H ≤ bytes.length) :
    ∃ img, LoadBMP fs file = some img ∧ img.width = W ∧ img.height = H ∧
      ∀ x y, x < W → y < H →
        img.GetPixel x y = colorAt bytes (54 + (H - 1 - y) * stride W + x * 3) := by
  rw [LoadBMP_of_file fs file bytes hfile, LoadBMP_body_complete bytes (by omega)]
  rw [if_neg (by rw [hsign]; decide), if_neg (by rw [hplanes, hbits, hcompress]; decide),
    if_neg (by rw [hhor, hver]; decide), if_neg (by rw [hused, hsignificant]; decide),
    hwidth, hheight]
  obtain ⟨img, h1, h2, h3, h4⟩ := readPixels_spec (bytes.drop 54) W H hmax
    (by rw [List.length_drop, Nat.mul_comm]; omega)
  refine ⟨img, h1, h2, h3, fun x y hx hy => ?_⟩
  rw [h4 x y hx hy, colorAt_drop]
  congr 1
  omega


/-! ## A file that declares a width beyond the range of the stride computation -/

theorem field_append_left (hdr tail : List Byte) (off n : Nat) (h : off + n ≤ hdr.length) :
    field (hdr ++ tail) off n = field hdr off n := by
  unfold field
  rw [List.drop_append_of_le_length (by omega),
    List.take_append_of_le_length (by rw [List.length_drop]; omega)]

theorem readPixels_wide (ifs : ifstream) (W : Nat) (h : Int) (hW : 715827881 < W) :
    LoadBMP.readPixels ifs (W : Int) h = none := by
  rcases hr : LoadBMP.readPixels ifs (W : Int) h with _ | img
  · rfl
  · exact absurd (readPixels_defined hr) (by omega)

theorem files_diskWith (file : Path) (bytes : List Byte) :
    (diskWith file bytes).files file = some bytes := by
  simp [diskWith]

theorem length_wideFile : wideFile.length = 54 + 4294967296 := by
  unfold wideFile
  rw [List.length_append, List.length_append, List.length_append, List.length_replicate,
    List.length_replicate]
  rfl

theorem field_wideFile (off n : Nat) (h : off + n ≤ 54) :
    field wideFile off n = field wideHeader off n :=
  field_append_left _ _ off n h

theorem take_wideFile : wideFile.take 2 = [66, 77] := by
  unfold wideFile
  rw [List.take_append_of_le_length (by decide)]
  rfl

/-- The stride computation has no defined result for the width that `wideFile`
declares, and `LoadBMP` has none either. -/
theorem LoadBMP_wideFile : LoadBMP (diskWith "in.bmp" wideFile) "in.bmp" = none := by
  rw [LoadBMP_of_file _ "in.bmp" wideFile (files_diskWith _ _),
    LoadBMP_body_complete wideFile (by rw [length_wideFile]; omega)]
  rw [if_neg (by rw [take_wideFile]; decide), field_wideFile 26 2 (by omega),
    field_wideFile 28 2 (by omega), field_wideFile 30 4 (by omega),
    field_wideFile 38 4 (by omega), field_wideFile 42 4 (by omega),
    field_wideFile 46 4 (by omega), field_wideFile 50 4 (by omega),
    field_wideFile 18 4 (by omega), field_wideFile 22 4 (by omega)]
  rw [if_neg (by decide), if_neg (by decide), if_neg (by decide)]
  have hw : toInt32 (field wideHeader 18 4) = ((715827882 : Nat) : Int) := by decide
  rw [hw]
  exact readPixels_wide _ _ _ (by omega)

/-! ## Decoding an encoded image -/

theorem colorAt_fileBytes (image : Image) (x y : Nat) (hx : x < image.width)
    (hy : y < image.height) :
    colorAt (fileBytes image) (54 + (image.height - 1 - y) * stride image.width + x * 3)
      = image.GetPixel x y := by
  have h0 := fileBytes_pixel image x y 0 hx hy (by decide)
  have h1 := fileBytes_pixel image x y 1 hx hy (by decide)
  have h2 := fileBytes_pixel image x y 2 hx hy (by decide)
  simp only [colorAt, List.getD_eq_getElem?_getD]
  rw [h1, h2]
  rw [Nat.add_zero] at h0
  rw [h0]
  simp [pixelBytes]

theorem toInt32_small (v : Nat) (h : v ≤ 2147483647) : toInt32 (v % 4294967296) = (v : Int) := by
  unfold toInt32
  split <;> omega

/-- Decoding the file that `SaveBMP` writes for `image`. -/
theorem LoadBMP_fileBytes (fs : FileSystem) (file : Path) (image : Image)
    (hfile : fs.files file = some (fileBytes image))
    (hW : 0 < image.width) (hH : 0 < image.height)
    (hrange : stride image.width * image.height ≤ 2147483647) :
    ∃ img, LoadBMP fs file = some img ∧ img.width = image.width ∧
      img.height = image.height ∧
      ∀ x y, x < image.width → y < image.height → img.GetPixel x y = image.GetPixel x y := by
  obtain ⟨h0, -, -, -, -, h18, h22, h26, h28, h30, -, h38, h42, h46, h50⟩ :=
    field_fileBytes_header image
  have hs1 := stride_ge image.width
  have hs3 := stride_mod image.width
  have hH2 : image.height ≤ stride image.width * image.height :=
    Nat.le_mul_of_pos_left _ (by omega)
  have hW2 : stride image.width ≤ stride image.width * image.height :=
    Nat.le_mul_of_pos_right _ hH
  obtain ⟨img, h1, h2, h3, h4⟩ := LoadBMP_run fs file (fileBytes image) image.width image.height
    hfile h0 h26 h28 h30 h38 h42 h46 h50
    (by rw [h18]; exact toInt32_small _ (by omega))
    (by rw [h22]; exact toInt32_small _ (by omega))
    (by omega) (by rw [length_fileBytes])
  refine ⟨img, h1, h2, h3, fun x y hx hy => ?_⟩
  rw [h4 x y hx hy, colorAt_fileBytes image x y hx hy]

/-! ## Runs on the sample values -/

theorem SaveBMP_black1x1 :
    SaveBMP emptyDisk "out.bmp" black1x1
      = some (true, emptyDisk.store "out.bmp" (fileBytes black1x1)) :=
  (SaveBMP_run emptyDisk "out.bmp" black1x1 rfl rfl).trans (if_pos (by decide))

theorem SaveBMP_redOverBlue :
    SaveBMP emptyDisk "out.bmp" redOverBlue
      = some (true, emptyDisk.store "out.bmp" (fileBytes redOverBlue)) :=
  (SaveBMP_run emptyDisk "out.bmp" redOverBlue rfl rfl).trans (if_pos (by decide))

/-- The sample file `redOverBlueFile` is what `SaveBMP` writes for `redOverBlue`. -/
theorem fileBytes_redOverBlue : fileBytes redOverBlue = redOverBlueFile := by decide

theorem bpp8File_eq : bpp8File = redOverBlueFile.set 28 8 := by decide

/-- `SaveBMP` succeeds on every non-empty image whose `stride * height` fits an
`int`, when the path can be opened. -/
theorem SaveBMP_succeeds (fs : FileSystem) (file : Path) (image : Image)
    (hW : 0 < image.width) (hH : 0 < image.height) (hfile : fs.writable file = true)
    (hrange : stride image.width * image.height ≤ 2147483647) :
    SaveBMP fs file image = some (true, fs.store file (fileBytes image)) :=
  (SaveBMP_run fs file image ((valid_iff image).2 ⟨hW, hH⟩) hfile).trans (if_pos hrange)

/-- Every successful `SaveBMP` stores `stride(W) * H`, the size of the pixel
data, in the field at offset 2. -/
theorem SaveBMP_file_size_field (fs fs' : FileSystem) (file : Path) (image : Image)
    (h : SaveBMP fs file image = some (true, fs')) :
    ∃ out, fs'.files file = some out ∧ field out 2 4 = stride image.width * image.height ∧
      out.length = 54 + stride image.width * image.height := by
  obtain ⟨-, -, hle, rfl⟩ := SaveBMP_true h
  refine ⟨fileBytes image, files_store _ _ _, ?_, length_fileBytes image⟩
  rw [(field_fileBytes_header image).2.1]
  omega

/-! ## The stride and the row-alignment rule -/

theorem ceil_three_quarters (W : Nat) : ⌈((W * 3 : Nat) : ℚ) / 4⌉₊ = (W * 3 + 3) / 4 := by
  apply le_antisymm
  · rw [Nat.ceil_le, div_le_iff₀ (by norm_num)]
    have h : W * 3 ≤ (W * 3 + 3) / 4 * 4 := by omega
    exact_mod_cast h
  · rcases Nat.eq_zero_or_pos ((W * 3 + 3) / 4) with h0 | hpos
    · rw [h0]; exact Nat.zero_le _
    · have hlt : (W * 3 + 3) / 4 - 1 < ⌈((W * 3 : Nat) : ℚ) / 4⌉₊ := by
        rw [Nat.lt_ceil, lt_div_iff₀ (by norm_num)]
        have h : ((W * 3 + 3) / 4 - 1) * 4 < W * 3 := by omega
        exact_mod_cast h
      omega

theorem stride_eq_rowAlignment (W : Nat) : stride W = rowAlignment W := by
  unfold stride rowAlignment
  rw [ceil_three_quarters]

theorem stride_least (W m : Nat) (h4 : 4 ∣ m) (hm : 3 * W ≤ m) : stride W ≤ m := by
  unfold stride
  omega

theorem stride_sub (W : Nat) : stride W - W * 3 = W % 4 := by
  unfold stride
  omega

/-! ## Padding bytes of `fileBytes` -/

/-- The byte at offset `j` of disk row `k` of the written file is a padding
byte when `j` is at least `width * 3`. -/
theorem fileBytes_padding (image : Image) (k j : Nat) (hk : k < image.height)
    (h1 : image.width * 3 ≤ j) (h2 : j < stride image.width) :
    (fileBytes image)[54 + k * stride image.width + j]? = some 0 := by
  have hd := fileBytes_drop image (image.height - 1 - k) (by omega)
  rw [show image.height - 1 - (image.height - 1 - k) = k by omega] at hd
  have e : (fileBytes image)[54 + k * stride image.width + j]?
      = ((fileBytes image).drop (54 + k * stride image.width))[j]? := by
    rw [List.getElem?_drop]
  rw [e, hd, List.append_assoc,
    List.getElem?_append_right (by rw [length_rowBytes]; exact h1), length_rowBytes,
    List.getElem?_append_left (by rw [List.length_replicate]; omega),
    List.getElem?_replicate, if_pos (by omega)]

/-! ## The decoder on a stream of any length -/

theorem loadRows_dims (w3 pad n : Nat) (st : LoadState) :
    (loadRows w3 pad n st).result.width = st.result.width ∧
      (loadRows w3 pad n st).result.height = st.result.height := by
  induction n generalizing st with
  | zero => exact ⟨rfl, rfl⟩
  | succ n ih =>
    simp only [loadRows]
    obtain ⟨h1, h2⟩ := ih ⟨((st.ifs.read st.buff w3).2.read st.padding_buff pad).2,
      (st.ifs.read st.buff w3).1, ((st.ifs.read st.buff w3).2.read st.padding_buff pad).1,
      loadLine (st.ifs.read st.buff w3).1 n st.result⟩
    obtain ⟨lw, lh, -⟩ := loadLine_spec (st.ifs.read st.buff w3).1 n st.result
    exact ⟨h1.trans lw, h2.trans lh⟩

/-- Whatever the stream holds, lines 192-214 return an image of the declared
dimensions when the width is within the range of the stride computation. -/
theorem readPixels_dims (ifs : ifstream) (W H : Nat) (hW : W ≤ 715827881) :
    ∃ img, LoadBMP.readPixels ifs (W : Int) (H : Int) = some img ∧
      img.width = W ∧ img.height = H := by
  have hs1 := stride_ge W
  have hs2 := stride_lt W
  have e0 : Image.create (W : Int) (H : Int) Color.Black
      = some ⟨W, H, List.replicate (W * H) Color.Black, by simp⟩ := by
    simp [Image.create]
  have e2 : int32 ((W : Int) * 3) = some ((W * 3 : Nat) : Int) := by
    rw [show (W : Int) * 3 = ((W * 3 : Nat) : Int) by push_cast; rfl,
      int32_of_range (by omega) (by omega)]
  have e3 : int32 ((stride W : Int) - ((W * 3 : Nat) : Int))
      = some ((stride W - W * 3 : Nat) : Int) := by
    rw [int32_of_range (by omega) (by omega)]
    congr 1
    omega
  obtain ⟨h1, h2⟩ := loadRows_dims (W * 3) (stride W - W * 3) H
    ⟨ifs, List.replicate (W * 3) 0, List.replicate (stride W - W * 3) 0,
      ⟨W, H, List.replicate (W * H) Color.Black, by simp⟩⟩
  refine ⟨_, ?_, h1, h2⟩
  unfold LoadBMP.readPixels
  simp only [Option.bind_eq_bind, e0, Option.some_bind, e2, (GetBMPStride_nat).2 ⟨hW, rfl⟩, e3,
    mkVector, Int.natCast_nonneg, if_true, Int.toNat_ofNat]

/-- On a file with a complete and valid header `LoadBMP` goes on to read the
pixel rows from byte 54. -/
theorem LoadBMP_valid_header (fs : FileSystem) (file : Path) (bytes : List Byte) (W H : Nat)
    (hfile : fs.files file = some bytes)
    (hlen : 54 ≤ bytes.length)
    (hsign : bytes.take 2 = [66, 77])
    (hplanes : field bytes 26 2 = 1) (hbits : field bytes 28 2 = 24)
    (hcompress : field bytes 30 4 = 0)
    (hhor : field bytes 38 4 = 11811) (hver : field bytes 42 4 = 11811)
    (hused : field bytes 46 4 = 0) (hsignificant : field bytes 50 4 = 16777216)
    (hwidth : toInt32 (field bytes 18 4) = (W : Int))
    (hheight : toInt32 (field bytes 22 4) = (H : Int)) :
    LoadBMP fs file = LoadBMP.readPixels ⟨bytes.drop 54, true⟩ (W : Int) (H : Int) := by
  rw [LoadBMP_of_file fs file bytes hfile, LoadBMP_body_complete bytes hlen]
  rw [if_neg (by rw [hsign]; decide), if_neg (by rw [hplanes, hbits, hcompress]; decide),
    if_neg (by rw [hhor, hver]; decide), if_neg (by rw [hused, hsignificant]; decide),
    hwidth, hheight]

/-! ## Header bytes that the decoder never uses -/

theorem read_snd (ifs : ifstream) (buf : List Byte) (n : Nat) :
    (ifs.read buf n).2 = ifs.skip n := by
  unfold ifstream.read ifstream.skip
  split
  · split <;> rfl
  · rfl

theorem readScalar_snd (ifs : ifstream) (n : Nat) : (ifs.readScalar n).2 = ifs.skip n := by
  unfold ifstream.readScalar ifstream.skip
  split
  · split <;> rfl
  · rfl

theorem skip_true (d : List Byte) (n : Nat) :
    ifstream.skip ⟨d, true⟩ n = if n ≤ d.length then ⟨d.drop n, true⟩ else ⟨[], false⟩ := by
  simp [ifstream.skip]

theorem skip_skip (d : List Byte) (n m : Nat) :
    (ifstream.skip ⟨d, true⟩ n).skip m = ifstream.skip ⟨d, true⟩ (n + m) := by
  rw [skip_true, skip_true]
  by_cases h1 : n ≤ d.length
  · rw [if_pos h1, skip_true, List.length_drop, List.drop_drop]
    by_cases h2 : m ≤ d.length - n
    · rw [if_pos h2, if_pos (by omega)]
    · rw [if_neg h2, if_neg (by omega)]
  · rw [if_neg h1, if_neg (by omega)]
    rfl

/-- The signature that `LoadBMP` reads depends on the first two bytes and on
the length of the file only. -/
theorem read_sign_eq (b : List Byte) :
    (ifstream.read ⟨b, true⟩ [0, 0] 2).1 = b.take 2 ++ ([0, 0] : List Byte).drop (min 2 b.length) := by
  match b with
  | [] => rfl
  | [_] => rfl
  | _ :: _ :: _ => simp [ifstream.read]

/-- The result of `LoadBMP` is determined by the signature read and by the
state of the stream after the first 18 bytes: the file-size, reserved, data-offset
and info-header-size fields are read and never used. -/
theorem LoadBMP_body_congr (b1 b2 : List Byte) (hlen : b1.length = b2.length)
    (h2 : b1.take 2 = b2.take 2) (h18 : b1.drop 18 = b2.drop 18) :
    LoadBMP.body ⟨b1, true⟩ = LoadBMP.body ⟨b2, true⟩ := by
  have hsign : (ifstream.read ⟨b1, true⟩ [0, 0] 2).1 = (ifstream.read ⟨b2, true⟩ [0, 0] 2).1 := by
    rw [read_sign_eq, read_sign_eq, h2, hlen]
  have hstate : ifstream.skip ⟨b1, true⟩ 18 = ifstream.skip ⟨b2, true⟩ 18 := by
    rw [skip_true, skip_true, hlen, h18]
  have hn : ∀ m, ifstream.skip ⟨b1, true⟩ (18 + m) = ifstream.skip ⟨b2, true⟩ (18 + m) := by
    intro m
    rw [← skip_skip, ← skip_skip, hstate]
  have h22 := hn 4
  have h26 := hn 8
  have h28 := hn 10
  have h30 := hn 12
  have h34 := hn 16
  have h38 := hn 20
  have h42 := hn 24
  have h46 := hn 28
  have h50 := hn 32
  have h54 := hn 36
  simp only [Nat.reduceAdd] at h22 h26 h28 h30 h34 h38 h42 h46 h50 h54
  unfold LoadBMP.body readInfoHeader
  simp only [read_snd, readScalar_snd, skip_skip, Nat.reduceAdd, hsign, hstate, h22, h26, h28,
    h30, h34, h38, h42, h46, h50, h54]

theorem LoadBMP_congr (fs1 fs2 : FileSystem) (file : Path) (b1 b2 : List Byte)
    (h1 : fs1.files file = some b1) (h2 : fs2.files file = some b2)
    (hlen : b1.length = b2.length) (h02 : b1.take 2 = b2.take 2)
    (h18 : b1.drop 18 = b2.drop 18) : LoadBMP fs1 file = LoadBMP fs2 file := by
  rw [LoadBMP_of_file fs1 file b1 h1, LoadBMP_of_file fs2 file b2 h2]
  exact LoadBMP_body_congr b1 b2 hlen h02 h18

/-! ## Files that differ at padding positions -/

theorem Image.ext_pixels (a b : Image) (hw : a.width = b.width) (hh : a.height = b.height)
    (hp : ∀ x y, x < a.width → y < a.height → a.GetPixel x y = b.GetPixel x y) : a = b := by
  obtain ⟨aw, ah, ap, as⟩ := a
  obtain ⟨bw, bh, bp, bs⟩ := b
  simp only at hw hh hp as bs
  subst hw hh
  have hpix : ap = bp := by
    apply List.ext_getElem (by rw [as, bs])
    intro i h1 h2
    have hi : i < aw * ah := by rw [← as]; exact h1
    have hwpos : 0 < aw := by
      rcases Nat.eq_zero_or_pos aw with h0 | h0
      · rw [h0, Nat.zero_mul] at hi; exact absurd hi (Nat.not_lt_zero _)
      · exact h0
    have hx : i % aw < aw := Nat.mod_lt _ hwpos
    have hy : i / aw < ah := Nat.div_lt_of_lt_mul hi
    have hidx : i / aw * aw + i % aw = i := by
      rw [Nat.mul_comm]; exact Nat.div_add_mod i aw
    have := hp (i % aw) (i / aw) hx hy
    simp only [Image.GetPixel, hidx] at this
    rw [List.getD_eq_getElem _ _ h1, List.getD_eq_getElem _ _ h2] at this
    exact this
  subst hpix
  rfl

theorem field_take (b : List Byte) (off n : Nat) (h : off + n ≤ 54) :
    field (b.take 54) off n = field b off n := by
  unfold field
  rw [List.drop_take, List.take_take, Nat.min_eq_left (by omega)]

theorem row_offset_unique {S q k r j : Nat} (hr : r < S) (hj : j < S)
    (h : q * S + r = k * S + j) : r = j := by
  have h1 : (q * S + r) % S = r := by
    rw [Nat.add_comm, Nat.add_mul_mod_self_right, Nat.mod_eq_of_lt hr]
  have h2 : (k * S + j) % S = j := by
    rw [Nat.add_comm, Nat.add_mul_mod_self_right, Nat.mod_eq_of_lt hj]
  rw [← h1, ← h2, h]

theorem getD_congr {b1 b2 : List Byte} {i : Nat} (h : b1[i]? = b2[i]?) :
    b1.getD i 0 = b2.getD i 0 := by
  rw [List.getD_eq_getElem?_getD, List.getD_eq_getElem?_getD, h]

/-- Two files that differ at padding positions only hold the same bytes for
every pixel. -/
theorem colorAt_congr_of_padding (b1 b2 : List Byte) (W H : Nat)
    (hdiff : ∀ i, b1[i]? ≠ b2[i]? →
      ∃ k j, k < H ∧ 3 * W ≤ j ∧ j < stride W ∧ i = 54 + k * stride W + j)
    (x y : Nat) (hx : x < W) :
    colorAt b1 (54 + (H - 1 - y) * stride W + x * 3)
      = colorAt b2 (54 + (H - 1 - y) * stride W + x * 3) := by
  have hs := stride_ge W
  have key : ∀ c, c < 3 → b1[54 + (H - 1 - y) * stride W + x * 3 + c]?
      = b2[54 + (H - 1 - y) * stride W + x * 3 + c]? := by
    intro c hc
    by_contra hne
    obtain ⟨k, j, -, hj1, hj2, hi⟩ := hdiff _ hne
    have := row_offset_unique (S := stride W) (q := H - 1 - y) (k := k) (r := x * 3 + c)
      (j := j) (by omega) hj2 (by omega)
    omega
  simp only [colorAt]
  rw [getD_congr (key 2 (by decide)), getD_congr (key 1 (by decide))]
  have h0 := key 0 (by decide)
  rw [Nat.add_zero] at h0
  rw [getD_congr h0]

theorem take_eq_of_padding (b1 b2 : List Byte) (W H : Nat)
    (hdiff : ∀ i, b1[i]? ≠ b2[i]? →
      ∃ k j, k < H ∧ 3 * W ≤ j ∧ j < stride W ∧ i = 54 + k * stride W + j) :
    b1.take 54 = b2.take 54 := by
  apply List.ext_getElem?
  intro n
  rw [List.getElem?_take, List.getElem?_take]
  split
  · by_contra hne
    obtain ⟨k, j, -, -, -, hi⟩ := hdiff n hne
    omega
  · rfl

theorem diff_unbounded (b1 b2 : List Byte) (W H : Nat) (hlen : b1.length = b2.length)
    (hdiff : ∀ i, i < b1.length → b1[i]? ≠ b2[i]? →
      ∃ k, k < H ∧ ∃ j, j < stride W ∧ 3 * W ≤ j ∧ i = 54 + k * stride W + j) :
    ∀ i, b1[i]? ≠ b2[i]? →
      ∃ k j, k < H ∧ 3 * W ≤ j ∧ j < stride W ∧ i = 54 + k * stride W + j := by
  intro i hne
  by_cases hi : i < b1.length
  · obtain ⟨k, hk, j, hj, h3, he⟩ := hdiff i hi hne
    exact ⟨k, j, hk, h3, hj, he⟩
  · exfalso
    apply hne
    rw [List.getElem?_eq_none (by omega), List.getElem?_eq_none (by omega)]

/-! ## Two files that declare a width beyond the range of the stride computation -/

theorem length_widePrefix : widePrefix.length = 54 + 4294967294 := by
  unfold widePrefix
  rw [List.length_append, List.length_append, List.length_append, List.length_replicate,
    List.length_replicate]
  rfl

theorem length_wideFilePadded : wideFilePadded.length = 54 + 4294967296 := by
  unfold wideFilePadded
  rw [List.length_append, List.length_append, List.length_append, List.length_append,
    List.length_replicate, List.length_replicate]
  rfl

theorem wideFile_eq : wideFile = widePrefix ++ [0, 0] := by
  unfold wideFile widePrefix
  rw [show (2147483644 : Nat) = 2147483642 + 2 from rfl, List.replicate_add]
  simp only [List.append_assoc]
  rfl

theorem wideFilePadded_eq : wideFilePadded = widePrefix ++ [9, 0] := by
  unfold wideFilePadded widePrefix
  simp only [List.append_assoc]

theorem getElem?_append_pair (P : List Byte) (a b c : Byte) (i : Nat)
    (h : (P ++ [a, c])[i]? ≠ (P ++ [b, c])[i]?) : i = P.length := by
  by_contra hne
  apply h
  rcases Nat.lt_or_ge i P.length with hlt | hge
  · rw [List.getElem?_append_left hlt, List.getElem?_append_left hlt]
  · rw [List.getElem?_append_right hge, List.getElem?_append_right hge]
    obtain ⟨d, hd⟩ : ∃ d, i - P.length = d + 1 := ⟨i - P.length - 1, by omega⟩
    rw [hd]
    rfl

/-- Whatever follows it, a file that starts with `wideHeader` has no defined
decoding: the stride computation has no value for the declared width. -/
theorem LoadBMP_wideHeader (tail : List Byte) :
    LoadBMP (diskWith "in.bmp" (wideHeader ++ tail)) "in.bmp" = none := by
  have hl : 54 ≤ (wideHeader ++ tail).length := by
    rw [List.length_append]
    exact Nat.le_add_right _ _
  have f : ∀ off n, off + n ≤ 54 →
      field (wideHeader ++ tail) off n = field wideHeader off n :=
    fun off n h => field_append_left _ _ off n h
  have h0 : (wideHeader ++ tail).take 2 = [66, 77] := by
    rw [List.take_append_of_le_length (by decide)]
    rfl
  rw [LoadBMP_of_file _ "in.bmp" _ (files_diskWith _ _), LoadBMP_body_complete _ hl]
  rw [if_neg (by rw [h0]; decide), f 26 2 (by omega), f 28 2 (by omega), f 30 4 (by omega),
    f 38 4 (by omega), f 42 4 (by omega), f 46 4 (by omega), f 50 4 (by omega),
    f 18 4 (by omega), f 22 4 (by omega)]
  rw [if_neg (by decide), if_neg (by decide), if_neg (by decide)]
  have hw : toInt32 (field wideHeader 18 4) = ((715827882 : Nat) : Int) := by decide
  rw [hw]
  exact readPixels_wide _ _ _ (by omega)

theorem LoadBMP_wideFilePadded :
    LoadBMP (diskWith "in.bmp" wideFilePadded) "in.bmp" = none := by
  unfold wideFilePadded
  exact LoadBMP_wideHeader _

/-! ## Two images that are too wide for the stride computation -/

/-- The encoder has no defined result for `wideRow`: the stride computation
leaves the range of `int`. -/
theorem SaveBMP_wideRow : SaveBMP emptyDisk "out.bmp" wideRow = none :=
  (SaveBMP_run emptyDisk "out.bmp" wideRow rfl rfl).trans (if_neg (by decide))

theorem SaveBMP_wideWhite : SaveBMP emptyDisk "out.bmp" wideWhite = none :=
  (SaveBMP_run emptyDisk "out.bmp" wideWhite rfl rfl).trans (if_neg (by decide))

theorem GetPixel_wideWhite (x y : Nat) (hx : x < 715827882) (hy : y < 2) :
    wideWhite.GetPixel x y = whiteColor := by
  have h : y * 715827882 + x < 1431655764 := by omega
  show (List.replicate 1431655764 whiteColor).getD (y * 715827882 + x) Color.Black = whiteColor
  rw [List.getD_eq_getElem?_getD, List.getElem?_replicate, if_pos h]
  rfl

/-! ## The claims -/

/-- C1. Round trip: for every image of width `W > 0` and height `H > 0` with
`stride(W) * H` within the range of the 32-bit `int` product that `SaveBMP`
computes, and every path that can be opened for writing, `SaveBMP` succeeds and
`LoadBMP` on the file it wrote returns an image of the same width and height
with the same red, green and blue value at every `(x, y)`. -/
theorem SaveBMP_LoadBMP_roundtrip (fs : FileSystem) (file : Path) (image : Image)
    (hW : 0 < image.width) (hH : 0 < image.height) (hfile : fs.writable file = true)
    (hrange : stride image.width * image.height ≤ 2147483647) :
    ∃ fs' img, SaveBMP fs file image = some (true, fs') ∧ LoadBMP fs' file = some img ∧
      img.width = image.width ∧ img.height = image.height ∧
      ∀ x y, x < image.width → y < image.height →
        (img.GetPixel x y).r = (image.GetPixel x y).r ∧
        (img.GetPixel x y).g = (image.GetPixel x y).g ∧
        (img.GetPixel x y).b = (image.GetPixel x y).b := by
  have hrun := SaveBMP_succeeds fs file image hW hH hfile hrange
  obtain ⟨img, h1, h2, h3, h4⟩ := LoadBMP_fileBytes (fs.store file (fileBytes image)) file image
    (files_store _ _ _) hW hH hrange
  refine ⟨_, img, hrun, h1, h2, h3, fun x y hx hy => ?_⟩
  rw [h4 x y hx hy]
  exact ⟨rfl, rfl, rfl⟩

theorem SaveBMP_LoadBMP_roundtrip_witness :
    0 < redOverBlue.width ∧ 0 < redOverBlue.height ∧ emptyDisk.writable "out.bmp" = true ∧
      stride redOverBlue.width * redOverBlue.height ≤ 2147483647 ∧
      ∃ fs' img, SaveBMP emptyDisk "out.bmp" redOverBlue = some (true, fs') ∧
        LoadBMP fs' "out.bmp" = some img ∧
        img.width = redOverBlue.width ∧ img.height = redOverBlue.height ∧
        ∀ x y, x < redOverBlue.width → y < redOverBlue.height →
          (img.GetPixel x y).r = (redOverBlue.GetPixel x y).r ∧
          (img.GetPixel x y).g = (redOverBlue.GetPixel x y).g ∧
          (img.GetPixel x y).b = (redOverBlue.GetPixel x y).b :=
  ⟨by decide, by decide, rfl, by decide,
    SaveBMP_LoadBMP_roundtrip emptyDisk "out.bmp" redOverBlue (by decide) (by decide) rfl
      (by decide)⟩

/-- C2, as amended. Output length: for every non-empty image of width `W` and
height `H` with `stride(W) * H ≤ 2^31 - 1`, the range of the `int` product that
`SaveBMP` computes, and every path that can be opened for writing, `SaveBMP`
succeeds and the file it leaves holds exactly `54 + stride(W) * H` bytes; in
particular 58 bytes for a grid of one column and one row. -/
theorem SaveBMP_output_length (fs : FileSystem) (file : Path) (image : Image)
    (hW : 0 < image.width) (hH : 0 < image.height) (hfile : fs.writable file = true)
    (hrange : stride image.width * image.height ≤ 2147483647) :
    ∃ fs' out, SaveBMP fs file image = some (true, fs') ∧ fs'.files file = some out ∧
      out.length = 54 + stride image.width * image.height ∧
      (image.width = 1 → image.height = 1 → out.length = 58) := by
  refine ⟨_, fileBytes image, SaveBMP_succeeds fs file image hW hH hfile hrange,
    files_store _ _ _, length_fileBytes image, ?_⟩
  intro h1 h2
  rw [length_fileBytes, h1, h2]
  rfl

theorem SaveBMP_output_length_witness :
    0 < black1x1.width ∧ 0 < black1x1.height ∧ emptyDisk.writable "out.bmp" = true ∧
      stride black1x1.width * black1x1.height ≤ 2147483647 ∧
      ∃ fs' out, SaveBMP emptyDisk "out.bmp" black1x1 = some (true, fs') ∧
        fs'.files "out.bmp" = some out ∧ out.length = 58 :=
  ⟨by decide, by decide, rfl, by decide,
    match SaveBMP_output_length emptyDisk "out.bmp" black1x1 (by decide) (by decide) rfl
      (by decide) with
    | ⟨fs', out, h0, h1, _, h3⟩ => ⟨fs', out, h0, h1, h3 rfl rfl⟩⟩

/-- C2, counterexample. The image `wideRow` is not empty (width 715827882,
height 1) and the path can be opened, yet `SaveBMP` has no defined result:
`w * 3 + 3` leaves the range of `int` in the stride computation. No run of
`SaveBMP` on it writes `54 + stride(W) * H` bytes. -/
theorem SaveBMP_output_length_fails_on_wideRow :
    0 < wideRow.width ∧ 0 < wideRow.height ∧ emptyDisk.writable "out.bmp" = true ∧
      stride wideRow.width * wideRow.height = 2147483648 ∧
      SaveBMP emptyDisk "out.bmp" wideRow = none ∧
      ¬ ∃ fs' out, SaveBMP emptyDisk "out.bmp" wideRow = some (true, fs') ∧
        fs'.files "out.bmp" = some out ∧
        out.length = 54 + stride wideRow.width * wideRow.height := by
  refine ⟨by decide, by decide, rfl, by decide, SaveBMP_wideRow, ?_⟩
  rintro ⟨fs', out, h, -⟩
  rw [SaveBMP_wideRow] at h
  exact Option.noConfusion h

/-- C3, as amended. Pixel placement on encode: for every non-empty image of
width `W` and height `H` with `stride(W) * H ≤ 2^31 - 1`, every path that can
be opened for writing and every pixel `(x, y)` with `x < W` and `y < H`,
`SaveBMP` succeeds and the bytes of the written file at offsets
`54 + (H-1-y) * stride(W) + 3x`, `+1` and `+2` are the blue, green and red
values of that pixel. -/
theorem SaveBMP_pixel_placement (fs : FileSystem) (file : Path) (image : Image)
    (hW : 0 < image.width) (hH : 0 < image.height) (hfile : fs.writable file = true)
    (hrange : stride image.width * image.height ≤ 2147483647) (x y : Nat)
    (hx : x < image.width) (hy : y < image.height) :
    ∃ fs' out, SaveBMP fs file image = some (true, fs') ∧ fs'.files file = some out ∧
      out[54 + (image.height - 1 - y) * stride image.width + 3 * x]?
        = some (image.GetPixel x y).b ∧
      out[54 + (image.height - 1 - y) * stride image.width + 3 * x + 1]?
        = some (image.GetPixel x y).g ∧
      out[54 + (image.height - 1 - y) * stride image.width + 3 * x + 2]?
        = some (image.GetPixel x y).r := by
  refine ⟨_, fileBytes image, SaveBMP_succeeds fs file image hW hH hfile hrange,
    files_store _ _ _, ?_, ?_, ?_⟩
  · have := fileBytes_pixel image x y 0 hx hy (by decide)
    rw [Nat.mul_comm 3 x]
    exact this
  · have := fileBytes_pixel image x y 1 hx hy (by decide)
    rw [Nat.mul_comm 3 x]
    exact this
  · have := fileBytes_pixel image x y 2 hx hy (by decide)
    rw [Nat.mul_comm 3 x]
    exact this

theorem SaveBMP_pixel_placement_witness :
    (∃ fs' out, SaveBMP emptyDisk "out.bmp" redOverBlue = some (true, fs') ∧
        fs'.files "out.bmp" = some out ∧
        out[54]? = some 255 ∧ out[55]? = some 0 ∧ out[56]? = some 0) ∧
      (∃ fs' out, SaveBMP emptyDisk "out.bmp" redOverBlue = some (true, fs') ∧
        fs'.files "out.bmp" = some out ∧
        out[58]? = some 0 ∧ out[59]? = some 0 ∧ out[60]? = some 255) :=
  ⟨SaveBMP_pixel_placement emptyDisk "out.bmp" redOverBlue (by decide) (by decide) rfl
      (by decide) 0 1 (by decide) (by decide),
    SaveBMP_pixel_placement emptyDisk "out.bmp" redOverBlue (by decide) (by decide) rfl
      (by decide) 0 0 (by decide) (by decide)⟩

/-- C3, counterexample. The image `wideWhite` is not empty (width 715827882,
height 2, every pixel white) and the path can be opened, yet `SaveBMP` has no
defined result: `w * 3 + 3` leaves the range of `int` in the stride
computation. Pixel `(0, 0)` is in range, and no run of `SaveBMP` on the image
puts its blue value 255 at offset `54 + (2-1-0) * stride(W) + 3 * 0`. -/
theorem SaveBMP_pixel_placement_fails_on_wideWhite :
    (0 < wideWhite.width ∧ 0 < wideWhite.height) ∧ emptyDisk.writable "out.bmp" = true ∧
      0 < wideWhite.width ∧ 0 < wideWhite.height ∧
      (wideWhite.GetPixel 0 0).b = 255 ∧
      SaveBMP emptyDisk "out.bmp" wideWhite = none ∧
      ¬ ∃ fs' out, SaveBMP emptyDisk "out.bmp" wideWhite = some (true, fs') ∧
        fs'.files "out.bmp" = some out ∧
        out[54 + (wideWhite.height - 1 - 0) * stride wideWhite.width + 3 * 0]?
          = some (wideWhite.GetPixel 0 0).b := by
  refine ⟨⟨by decide, by decide⟩, rfl, by decide, by decide, ?_, SaveBMP_wideWhite, ?_⟩
  · rw [GetPixel_wideWhite 0 0 (by decide) (by decide)]
    rfl
  · rintro ⟨fs', out, h, -⟩
    rw [SaveBMP_wideWhite] at h
    exact Option.noConfusion h

/-- C4, as amended. Header layout on encode: for every non-empty image of
width `W` and height `H` with `stride(W) * H ≤ 2^31 - 1` and every path that
can be opened for writing, `SaveBMP` succeeds and the written file starts with
`"BM"` and holds, little-endian, reserved 0 at offset 6, data offset 54 at 10,
info-header size 40 at 14, `W` at 18, `H` at 22, planes 1 at 26, bits per pixel
24 at 28, compression 0 at 30, data size `stride(W) * H` at 34, resolutions
11811 at 38 and 42, used colours 0 at 46 and significant colours `0x1000000`
at 50. -/
theorem SaveBMP_header_layout (fs : FileSystem) (file : Path) (image : Image)
    (hW : 0 < image.width) (hH : 0 < image.height) (hfile : fs.writable file = true)
    (hrange : stride image.width * image.height ≤ 2147483647) :
    ∃ fs' out, SaveBMP fs file image = some (true, fs') ∧ fs'.files file = some out ∧
      54 ≤ out.length ∧
      out.take 2 = [66, 77] ∧
      field out 6 4 = 0 ∧
      field out 10 4 = 54 ∧
      field out 14 4 = 40 ∧
      field out 18 4 = image.width ∧
      field out 22 4 = image.height ∧
      field out 26 2 = 1 ∧
      field out 28 2 = 24 ∧
      field out 30 4 = 0 ∧
      field out 34 4 = stride image.width * image.height ∧
      field out 38 4 = 11811 ∧
      field out 42 4 = 11811 ∧
      field out 46 4 = 0 ∧
      field out 50 4 = 16777216 := by
  obtain ⟨h0, -, h6, h10, h14, h18, h22, h26, h28, h30, h34, h38, h42, h46, h50⟩ :=
    field_fileBytes_header image
  have hs := stride_ge image.width
  have hH2 : image.height ≤ stride image.width * image.height :=
    Nat.le_mul_of_pos_left _ (by omega)
  have hW2 : stride image.width ≤ stride image.width * image.height :=
    Nat.le_mul_of_pos_right _ hH
  refine ⟨_, fileBytes image, SaveBMP_succeeds fs file image hW hH hfile hrange,
    files_store _ _ _, ?_, h0, h6, h10, h14, ?_, ?_, h26, h28, h30, ?_, h38, h42, h46, h50⟩
  · rw [length_fileBytes]; omega
  · rw [h18]; omega
  · rw [h22]; omega
  · rw [h34]; omega

theorem SaveBMP_header_layout_witness :
    ∃ fs' out, SaveBMP emptyDisk "out.bmp" redOverBlue = some (true, fs') ∧
      fs'.files "out.bmp" = some out ∧
      54 ≤ out.length ∧ out.take 2 = [66, 77] ∧ field out 6 4 = 0 ∧ field out 10 4 = 54 ∧
      field out 14 4 = 40 ∧ field out 18 4 = 1 ∧ field out 22 4 = 2 ∧ field out 26 2 = 1 ∧
      field out 28 2 = 24 ∧ field out 30 4 = 0 ∧ field out 34 4 = 8 ∧
      field out 38 4 = 11811 ∧ field out 42 4 = 11811 ∧ field out 46 4 = 0 ∧
      field out 50 4 = 16777216 :=
  SaveBMP_header_layout emptyDisk "out.bmp" redOverBlue (by decide) (by decide) rfl (by decide)

/-- C4, counterexample. The image `wideRow` is not empty (width 715827882,
height 1) and the path can be opened, yet `SaveBMP` has no defined result:
`w * 3 + 3` leaves the range of `int` in the stride computation. No run of
`SaveBMP` on it writes `stride(W) * H = 2147483648` in the field at offset 34. -/
theorem SaveBMP_header_layout_fails_on_wideRow :
    (0 < wideRow.width ∧ 0 < wideRow.height) ∧ emptyDisk.writable "out.bmp" = true ∧
      stride wideRow.width * wideRow.height = 2147483648 ∧
      SaveBMP emptyDisk "out.bmp" wideRow = none ∧
      ¬ ∃ fs' out, SaveBMP emptyDisk "out.bmp" wideRow = some (true, fs') ∧
        fs'.files "out.bmp" = some out ∧
        field out 34 4 = stride wideRow.width * wideRow.height := by
  refine ⟨⟨by decide, by decide⟩, rfl, by decide, SaveBMP_wideRow, ?_⟩
  rintro ⟨fs', out, h, -⟩
  rw [SaveBMP_wideRow] at h
  exact Option.noConfusion h

/-- C5. The file-size field on encode: for the grid of one black pixel
`SaveBMP` succeeds and writes 58 bytes, and the field at offset 2 of the file
holds 4, the size of the pixel data alone, not the length 58 of the file. -/
theorem SaveBMP_file_size_field_black1x1 :
    ∃ fs' out, SaveBMP emptyDisk "out.bmp" black1x1 = some (true, fs') ∧
      fs'.files "out.bmp" = some out ∧ out.length = 58 ∧ field out 2 4 = 4 ∧
      field out 2 4 ≠ out.length := by
  refine ⟨_, fileBytes black1x1, SaveBMP_black1x1, files_store _ _ _, ?_, ?_, ?_⟩
  · rw [length_fileBytes]; rfl
  · rw [(field_fileBytes_header black1x1).2.1]; rfl
  · rw [(field_fileBytes_header black1x1).2.1, length_fileBytes]; decide

/-- C6, as amended. Stride correctness: for every `W` with
`0 ≤ W ≤ 715827881`, `GetBMPStride W` has a value, and this value is a multiple
of 4, is at least `3 * W`, and exceeds `3 * W` by less than 4. -/
theorem GetBMPStride_correct (W : Int) (hW : 0 ≤ W) (hmax : W ≤ 715827881) :
    ∃ s, GetBMPStride W = some s ∧ s % 4 = 0 ∧ s ≥ 3 * W ∧ s - 3 * W < 4 := by
  refine ⟨_, (GetBMPStride_eq_some hW).2 ⟨hmax, rfl⟩, ?_, ?_, ?_⟩ <;> omega

theorem GetBMPStride_correct_witness :
    (0 : Int) ≤ 715827881 ∧ (715827881 : Int) ≤ 715827881 ∧
      ∃ s, GetBMPStride 715827881 = some s ∧ s % 4 = 0 ∧ s ≥ 3 * 715827881 ∧
        s - 3 * 715827881 < 4 :=
  ⟨by decide, by decide, GetBMPStride_correct 715827881 (by decide) (by decide)⟩

/-- C6, counterexample. For `W = 715827882 ≥ 0` the sum `W * 3 + 3 = 2147483649`
leaves the range of `int`: `GetBMPStride W` has no value, so no value of it
satisfies the three properties. -/
theorem GetBMPStride_overflow :
    (0 : Int) ≤ 715827882 ∧ GetBMPStride 715827882 = none ∧
      ¬ ∃ s, GetBMPStride 715827882 = some s ∧ s % 4 = 0 ∧ s ≥ 3 * 715827882 ∧
        s - 3 * 715827882 < 4 := by
  have h : GetBMPStride 715827882 = none := by decide
  refine ⟨by decide, h, ?_⟩
  rintro ⟨s, hs, -⟩
  rw [h] at hs
  exact Option.noConfusion hs

/-- C7. Signature rejection: for every file whose first two bytes are not
`"BM"`, whatever its length and its other bytes, `LoadBMP` returns the empty
image. -/
theorem LoadBMP_signature_rejected (fs : FileSystem) (file : Path) (bytes : List Byte)
    (hfile : fs.files file = some bytes) (hsign : bytes.take 2 ≠ [66, 77]) :
    LoadBMP fs file = some Image.empty := by
  rw [LoadBMP_of_file fs file bytes hfile]
  exact LoadBMP_body_bad_sign bytes hsign

theorem LoadBMP_signature_rejected_witness :
    (diskWith "in.bmp" [66, 90, 1, 2, 3]).files "in.bmp" = some [66, 90, 1, 2, 3] ∧
      ([66, 90, 1, 2, 3] : List Byte).take 2 ≠ [66, 77] ∧
      LoadBMP (diskWith "in.bmp" [66, 90, 1, 2, 3]) "in.bmp" = some Image.empty :=
  ⟨rfl, by decide, LoadBMP_signature_rejected _ _ _ rfl (by decide)⟩

/-- C8. Fixed-field rejection: for every file with a complete 54-byte header
in which the colour planes are not 1, or the bits per pixel not 24, or the
compression not 0, or a resolution not 11811, or the used colours not 0, or the
significant colours not `0x1000000`, `LoadBMP` returns the empty image,
whatever the other fields and the bytes after the header. -/
theorem LoadBMP_fixed_field_rejected (fs : FileSystem) (file : Path) (bytes : List Byte)
    (hfile : fs.files file = some bytes) (hlen : 54 ≤ bytes.length)
    (hbad : field bytes 26 2 ≠ 1 ∨ field bytes 28 2 ≠ 24 ∨ field bytes 30 4 ≠ 0 ∨
      field bytes 38 4 ≠ 11811 ∨ field bytes 42 4 ≠ 11811 ∨ field bytes 46 4 ≠ 0 ∨
      field bytes 50 4 ≠ 16777216) :
    LoadBMP fs file = some Image.empty := by
  have e38 : toInt32 (field bytes 38 4) = 11811 → field bytes 38 4 = 11811 :=
    toInt32_eq_of_small _ _ (field_lt_four bytes 38) (by decide)
  have e42 : toInt32 (field bytes 42 4) = 11811 → field bytes 42 4 = 11811 :=
    toInt32_eq_of_small _ _ (field_lt_four bytes 42) (by decide)
  have e46 : toInt32 (field bytes 46 4) = 0 → field bytes 46 4 = 0 :=
    toInt32_eq_of_small _ _ (field_lt_four bytes 46) (by decide)
  have e50 : toInt32 (field bytes 50 4) = 16777216 → field bytes 50 4 = 16777216 :=
    toInt32_eq_of_small _ _ (field_lt_four bytes 50) (by decide)
  rw [LoadBMP_of_file fs file bytes hfile, LoadBMP_body_complete bytes hlen]
  split_ifs with h1 h2 h3 h4
  · rfl
  · rfl
  · rfl
  · rfl
  · exfalso
    push_neg at h2 h3 h4
    rcases hbad with h | h | h | h | h | h | h
    · exact h h2.1
    · exact h h2.2.1
    · exact h h2.2.2
    · exact h (e38 h3.1)
    · exact h (e42 h3.2)
    · exact h (e46 h4.1)
    · exact h (e50 h4.2)

theorem LoadBMP_fixed_field_rejected_witness :
    (∃ fs', SaveBMP emptyDisk "out.bmp" redOverBlue = some (true, fs') ∧
      fs'.files "out.bmp" = some redOverBlueFile) ∧
      bpp8File = redOverBlueFile.set 28 8 ∧
      (diskWith "in.bmp" bpp8File).files "in.bmp" = some bpp8File ∧ 54 ≤ bpp8File.length ∧
      field bpp8File 28 2 = 8 ∧ bpp8File.take 2 = [66, 77] ∧ field bpp8File 26 2 = 1 ∧
      field bpp8File 30 4 = 0 ∧ field bpp8File 38 4 = 11811 ∧ field bpp8File 42 4 = 11811 ∧
      field bpp8File 46 4 = 0 ∧ field bpp8File 50 4 = 16777216 ∧
      LoadBMP (diskWith "in.bmp" bpp8File) "in.bmp" = some Image.empty :=
  ⟨⟨_, SaveBMP_redOverBlue, (files_store _ _ _).trans (congrArg some fileBytes_redOverBlue)⟩,
    bpp8File_eq, rfl, by decide, by decide, by decide, by decide, by decide, by decide,
    by decide, by decide, by decide,
    LoadBMP_fixed_field_rejected _ _ _ rfl (by decide) (Or.inr (Or.inl (by decide)))⟩

/-- C9. Empty-input rejection: for every image whose width or height is zero,
`SaveBMP` returns `false` and leaves the file system exactly as it was. -/
theorem SaveBMP_empty_rejected (fs : FileSystem) (file : Path) (image : Image)
    (h : image.width = 0 ∨ image.height = 0) :
    SaveBMP fs file image = some (false, fs) := by
  have hv : image.valid = false := by
    rcases h with h | h <;> simp [Image.valid, h]
  unfold SaveBMP
  simp [hv]

theorem SaveBMP_empty_rejected_witness :
    (noColumns.width = 0 ∨ noColumns.height = 0) ∧
      SaveBMP (diskWith "out.bmp" [1, 2, 3]) "out.bmp" noColumns
        = some (false, diskWith "out.bmp" [1, 2, 3]) :=
  ⟨Or.inl rfl, SaveBMP_empty_rejected _ _ _ (Or.inl rfl)⟩

/-- C10, as amended. Decoder pixel mapping: for every file with signature
`"BM"` that passes all info-header checks, declares a width `0 < W ≤ 715827881`
and a height `H > 0`, and holds at least `54 + stride(W) * H` bytes, `LoadBMP`
returns an image of width `W` and height `H` in which pixel `(x, y)` has blue
= byte `54 + (H-1-y) * stride(W) + 3x` of the file, green = the next byte and
red = the byte after. -/
theorem LoadBMP_pixel_mapping (fs : FileSystem) (file : Path) (bytes : List Byte) (W H : Nat)
    (hfile : fs.files file = some bytes)
    (hsign : bytes.take 2 = [66, 77])
    (hplanes : field bytes 26 2 = 1) (hbits : field bytes 28 2 = 24)
    (hcompress : field bytes 30 4 = 0)
    (hhor : field bytes 38 4 = 11811) (hver : field bytes 42 4 = 11811)
    (hused : field bytes 46 4 = 0) (hsignificant : field bytes 50 4 = 16777216)
    (hwidth : toInt32 (field bytes 18 4) = (W : Int))
    (hheight : toInt32 (field bytes 22 4) = (H : Int))
    (_hW : 0 < W) (_hH : 0 < H) (hmax : W ≤ 715827881)
    (hlen : 54 + stride W * H ≤ bytes.length) :
    ∃ img, LoadBMP fs file = some img ∧ img.width = W ∧ img.height = H ∧
      ∀ x y, x < W → y < H →
        bytes[54 + (H - 1 - y) * stride W + 3 * x]? = some (img.GetPixel x y).b ∧
        bytes[54 + (H - 1 - y) * stride W + 3 * x + 1]? = some (img.GetPixel x y).g ∧
        bytes[54 + (H - 1 - y) * stride W + 3 * x + 2]? = some (img.GetPixel x y).r := by
  obtain ⟨img, h1, h2, h3, h4⟩ := LoadBMP_run fs file bytes W H hfile hsign hplanes hbits
    hcompress hhor hver hused hsignificant hwidth hheight hmax hlen
  refine ⟨img, h1, h2, h3, fun x y hx hy => ?_⟩
  have hs1 := stride_ge W
  have hrow : (H - 1 - y) * stride W + stride W ≤ stride W * H := by
    have : (H - 1 - y + 1) * stride W ≤ H * stride W := Nat.mul_le_mul_right _ (by omega)
    rw [Nat.add_mul, Nat.one_mul, Nat.mul_comm H] at this
    exact this
  rw [h4 x y hx hy, Nat.mul_comm 3 x]
  exact getElem?_of_colorAt bytes _ (by omega)

theorem LoadBMP_pixel_mapping_witness :
    ∃ img, LoadBMP (diskWith "in.bmp" redOverBlueFile) "in.bmp" = some img ∧
      img.width = 1 ∧ img.height = 2 ∧
      ∀ x y, x < 1 → y < 2 →
        redOverBlueFile[54 + (2 - 1 - y) * stride 1 + 3 * x]? = some (img.GetPixel x y).b ∧
        redOverBlueFile[54 + (2 - 1 - y) * stride 1 + 3 * x + 1]? = some (img.GetPixel x y).g ∧
        redOverBlueFile[54 + (2 - 1 - y) * stride 1 + 3 * x + 2]? = some (img.GetPixel x y).r :=
  LoadBMP_pixel_mapping (diskWith "in.bmp" redOverBlueFile) "in.bmp" redOverBlueFile 1 2 rfl
    (by decide) (by decide) (by decide) (by decide) (by decide) (by decide) (by decide)
    (by decide) (by decide) (by decide) (by decide) (by decide) (by decide) (by decide)

/-- C10, counterexample. The file `wideFile` has signature `"BM"`, passes all
info-header checks, declares width `715827882 > 0` and height `2 > 0` and holds
`54 + stride(715827882) * 2` bytes, yet `LoadBMP` returns no image for it: the
stride computation `W * 3 + 3` leaves the range of `int`. -/
theorem LoadBMP_pixel_mapping_fails_on_wideFile :
    (diskWith "in.bmp" wideFile).files "in.bmp" = some wideFile ∧
      wideFile.take 2 = [66, 77] ∧
      field wideFile 26 2 = 1 ∧ field wideFile 28 2 = 24 ∧ field wideFile 30 4 = 0 ∧
      field wideFile 38 4 = 11811 ∧ field wideFile 42 4 = 11811 ∧
      field wideFile 46 4 = 0 ∧ field wideFile 50 4 = 16777216 ∧
      toInt32 (field wideFile 18 4) = 715827882 ∧ toInt32 (field wideFile 22 4) = 2 ∧
      54 + stride 715827882 * 2 ≤ wideFile.length ∧
      LoadBMP (diskWith "in.bmp" wideFile) "in.bmp" = none ∧
      ¬ ∃ img, LoadBMP (diskWith "in.bmp" wideFile) "in.bmp" = some img := by
  refine ⟨files_diskWith _ _, take_wideFile, ?_, ?_, ?_, ?_, ?_, ?_, ?_, ?_, ?_, ?_,
    LoadBMP_wideFile, ?_⟩
  · rw [field_wideFile 26 2 (by omega)]; decide
  · rw [field_wideFile 28 2 (by omega)]; decide
  · rw [field_wideFile 30 4 (by omega)]; decide
  · rw [field_wideFile 38 4 (by omega)]; decide
  · rw [field_wideFile 42 4 (by omega)]; decide
  · rw [field_wideFile 46 4 (by omega)]; decide
  · rw [field_wideFile 50 4 (by omega)]; decide
  · rw [field_wideFile 18 4 (by omega)]; decide
  · rw [field_wideFile 22 4 (by omega)]; decide
  · rw [length_wideFile]; decide
  · rintro ⟨img, h⟩
    rw [LoadBMP_wideFile] at h
    exact Option.noConfusion h

/-- C11, as amended. Truncated input is not detected: for every file with a
valid 54-byte header that declares a width `0 < W ≤ 715827881` and a height
`H > 0` and is followed by fewer than `stride(W) * H` bytes of pixel data,
`LoadBMP` returns an image of width `W` and height `H`, not the empty image. -/
theorem LoadBMP_truncated_returns_grid (fs : FileSystem) (file : Path) (bytes : List Byte)
    (W H : Nat)
    (hfile : fs.files file = some bytes)
    (hlen : 54 ≤ bytes.length)
    (hsign : bytes.take 2 = [66, 77])
    (hplanes : field bytes 26 2 = 1) (hbits : field bytes 28 2 = 24)
    (hcompress : field bytes 30 4 = 0)
    (hhor : field bytes 38 4 = 11811) (hver : field bytes 42 4 = 11811)
    (hused : field bytes 46 4 = 0) (hsignificant : field bytes 50 4 = 16777216)
    (hwidth : toInt32 (field bytes 18 4) = (W : Int))
    (hheight : toInt32 (field bytes 22 4) = (H : Int))
    (hW : 0 < W) (_hH : 0 < H) (hmax : W ≤ 715827881)
    (_hshort : bytes.length < 54 + stride W * H) :
    ∃ img, LoadBMP fs file = some img ∧ img.width = W ∧ img.height = H ∧
      img ≠ Image.empty := by
  rw [LoadBMP_valid_header fs file bytes W H hfile hlen hsign hplanes hbits hcompress hhor hver
    hused hsignificant hwidth hheight]
  obtain ⟨img, h1, h2, h3⟩ := readPixels_dims ⟨bytes.drop 54, true⟩ W H hmax
  refine ⟨img, h1, h2, h3, fun he => ?_⟩
  rw [he] at h2
  exact absurd h2.symm (Nat.pos_iff_ne_zero.1 hW)

theorem LoadBMP_truncated_returns_grid_witness :
    ∃ img, LoadBMP (diskWith "in.bmp" truncatedFile) "in.bmp" = some img ∧ img.width = 1 ∧
      img.height = 2 ∧ img ≠ Image.empty :=
  LoadBMP_truncated_returns_grid (diskWith "in.bmp" truncatedFile) "in.bmp" truncatedFile 1 2
    rfl (by decide) (by decide) (by decide) (by decide) (by decide) (by decide) (by decide)
    (by decide) (by decide) (by decide) (by decide) (by decide) (by decide) (by decide)
    (by decide)

/-- C11, counterexample. The file `truncatedFile` has a valid 54-byte header
that declares width 1 and height 2, followed by 4 bytes of pixel data, fewer
than `stride(1) * 2 = 8`; `LoadBMP` returns a populated image of width 1 and
height 2 for it, not the empty image. -/
theorem LoadBMP_truncated_not_rejected :
    truncatedFile.length = 54 + 4 ∧ truncatedFile.length < 54 + stride 1 * 2 ∧
      truncatedFile.take 2 = [66, 77] ∧
      field truncatedFile 26 2 = 1 ∧ field truncatedFile 28 2 = 24 ∧
      field truncatedFile 30 4 = 0 ∧ field truncatedFile 38 4 = 11811 ∧
      field truncatedFile 42 4 = 11811 ∧ field truncatedFile 46 4 = 0 ∧
      field truncatedFile 50 4 = 16777216 ∧
      toInt32 (field truncatedFile 18 4) = 1 ∧ toInt32 (field truncatedFile 22 4) = 2 ∧
      LoadBMP (diskWith "in.bmp" truncatedFile) "in.bmp" = some blueOverBlue ∧
      LoadBMP (diskWith "in.bmp" truncatedFile) "in.bmp" ≠ some Image.empty := by
  decide

/-- C12, as amended. The reserved field (offset 6), the data-offset field
(offset 10) and the info-header size field (offset 14) are read and not
verified: for any two files of equal length that are identical except in bytes
6..17, `LoadBMP` returns the same result. -/
theorem LoadBMP_ignores_reserved_offset_size (fs1 fs2 : FileSystem) (file : Path)
    (b1 b2 : List Byte)
    (h1 : fs1.files file = some b1) (h2 : fs2.files file = some b2)
    (hlen : b1.length = b2.length) (h06 : b1.take 6 = b2.take 6)
    (h18 : b1.drop 18 = b2.drop 18) : LoadBMP fs1 file = LoadBMP fs2 file := by
  have h02 : b1.take 2 = b2.take 2 := by
    have := congrArg (List.take 2) h06
    simpa [List.take_take] using this
  exact LoadBMP_congr fs1 fs2 file b1 b2 h1 h2 hlen h02 h18

theorem LoadBMP_ignores_reserved_offset_size_witness :
    deviantFile.length = redOverBlueFile.length ∧
      deviantFile.take 6 = redOverBlueFile.take 6 ∧
      deviantFile.drop 18 = redOverBlueFile.drop 18 ∧
      field deviantFile 6 4 = 1 ∧ field deviantFile 10 4 = 55 ∧ field deviantFile 14 4 = 41 ∧
      LoadBMP (diskWith "in.bmp" deviantFile) "in.bmp"
        = LoadBMP (diskWith "in.bmp" redOverBlueFile) "in.bmp" :=
  ⟨by decide, by decide, by decide, by decide, by decide, by decide,
    LoadBMP_ignores_reserved_offset_size _ _ "in.bmp" deviantFile redOverBlueFile rfl rfl
      (by decide) (by decide) (by decide)⟩

/-- C12, counterexample. A file whose signature and other fields are valid and
whose pixel data is complete is decoded to the populated image `redOverBlue`,
not to the empty image, when its reserved field is 1 instead of 0, when its
data-offset field is 55 instead of 54, when its info-header size field is 41
instead of 40, and when all three deviate at once. -/
theorem LoadBMP_deviant_header_not_rejected :
    (field (redOverBlueFile.set 6 1) 6 4 = 1 ∧
      LoadBMP (diskWith "in.bmp" (redOverBlueFile.set 6 1)) "in.bmp" = some redOverBlue) ∧
    (field (redOverBlueFile.set 10 55) 10 4 = 55 ∧
      LoadBMP (diskWith "in.bmp" (redOverBlueFile.set 10 55)) "in.bmp" = some redOverBlue) ∧
    (field (redOverBlueFile.set 14 41) 14 4 = 41 ∧
      LoadBMP (diskWith "in.bmp" (redOverBlueFile.set 14 41)) "in.bmp" = some redOverBlue) ∧
    (field deviantFile 6 4 = 1 ∧ field deviantFile 10 4 = 55 ∧ field deviantFile 14 4 = 41 ∧
      deviantFile.take 2 = [66, 77] ∧ field deviantFile 26 2 = 1 ∧
      field deviantFile 28 2 = 24 ∧ field deviantFile 30 4 = 0 ∧
      field deviantFile 38 4 = 11811 ∧ field deviantFile 42 4 = 11811 ∧
      field deviantFile 46 4 = 0 ∧ field deviantFile 50 4 = 16777216 ∧
      deviantFile.length = 54 + stride 1 * 2 ∧
      LoadBMP (diskWith "in.bmp" deviantFile) "in.bmp" = some redOverBlue) ∧
    some redOverBlue ≠ some Image.empty := by
  decide

/-- C13. Size and offset fields are not validated on decode: for any two
files of equal length that are identical except in the file-size field (bytes
2..5) and the data-offset field (bytes 10..13), `LoadBMP` returns the same
result; and whenever `LoadBMP` returns an image for a file with a valid header
and all its pixel data, pixel `(x, y)` is built from the three bytes at offset
`54 + (H-1-y) * stride(W) + 3x`, whatever the data-offset field holds. -/
theorem LoadBMP_ignores_size_and_offset (fs1 fs2 : FileSystem) (file : Path)
    (b1 b2 : List Byte)
    (h1 : fs1.files file = some b1) (h2 : fs2.files file = some b2)
    (hlen : b1.length = b2.length)
    (h02 : b1.take 2 = b2.take 2)
    (_h69 : (b1.drop 6).take 4 = (b2.drop 6).take 4)
    (h14 : b1.drop 14 = b2.drop 14) :
    LoadBMP fs1 file = LoadBMP fs2 file ∧
      ∀ (W H : Nat) (img : Image), LoadBMP fs1 file = some img →
        b1.take 2 = [66, 77] →
        field b1 26 2 = 1 → field b1 28 2 = 24 → field b1 30 4 = 0 →
        field b1 38 4 = 11811 → field b1 42 4 = 11811 →
        field b1 46 4 = 0 → field b1 50 4 = 16777216 →
        toInt32 (field b1 18 4) = (W : Int) → toInt32 (field b1 22 4) = (H : Int) →
        54 + stride W * H ≤ b1.length →
        img.width = W ∧ img.height = H ∧
          ∀ x y, x < W → y < H →
            img.GetPixel x y = colorAt b1 (54 + (H - 1 - y) * stride W + x * 3) := by
  constructor
  · have h18 : b1.drop 18 = b2.drop 18 := by
      have := congrArg (List.drop 4) h14
      simpa [List.drop_drop] using this
    exact LoadBMP_congr fs1 fs2 file b1 b2 h1 h2 hlen h02 h18
  · intro W H img himg hsign hplanes hbits hcompress hhor hver hused hsignificant hwidth
      hheight hdata
    have hmax : W ≤ 715827881 := by
      rw [LoadBMP_valid_header fs1 file b1 W H h1 (by omega) hsign hplanes hbits hcompress hhor
        hver hused hsignificant hwidth hheight] at himg
      exact readPixels_defined himg
    obtain ⟨img', e, hw, hh, hp⟩ := LoadBMP_run fs1 file b1 W H h1 hsign hplanes hbits hcompress
      hhor hver hused hsignificant hwidth hheight hmax hdata
    rw [himg] at e
    obtain rfl := Option.some.inj e
    exact ⟨hw, hh, hp⟩

theorem LoadBMP_ignores_size_and_offset_witness :
    field sizeOffsetFile 2 4 ≠ field redOverBlueFile 2 4 ∧
      field sizeOffsetFile 10 4 ≠ field redOverBlueFile 10 4 ∧
      LoadBMP (diskWith "in.bmp" sizeOffsetFile) "in.bmp"
        = LoadBMP (diskWith "in.bmp" redOverBlueFile) "in.bmp" ∧
      LoadBMP (diskWith "in.bmp" sizeOffsetFile) "in.bmp" = some redOverBlue :=
  ⟨by decide, by decide,
    (LoadBMP_ignores_size_and_offset (diskWith "in.bmp" sizeOffsetFile)
      (diskWith "in.bmp" redOverBlueFile) "in.bmp" sizeOffsetFile redOverBlueFile rfl rfl
      (by decide) (by decide) (by decide) (by decide)).1,
    by decide⟩

/-- C14, as amended. Padding is zero on encode: for every non-empty image of
width `W` and height `H` with `stride(W) * H ≤ 2^31 - 1`, every path that can
be opened for writing, every row index `k < H` and every `j` with
`3W ≤ j < stride(W)`, `SaveBMP` succeeds and the byte of the written file at
offset `54 + k * stride(W) + j` is 0. -/
theorem SaveBMP_padding_zero (fs : FileSystem) (file : Path) (image : Image)
    (hW : 0 < image.width) (hH : 0 < image.height) (hfile : fs.writable file = true)
    (hrange : stride image.width * image.height ≤ 2147483647) (k j : Nat)
    (hk : k < image.height) (h1 : 3 * image.width ≤ j) (h2 : j < stride image.width) :
    ∃ fs' out, SaveBMP fs file image = some (true, fs') ∧ fs'.files file = some out ∧
      out[54 + k * stride image.width + j]? = some 0 :=
  ⟨_, fileBytes image, SaveBMP_succeeds fs file image hW hH hfile hrange, files_store _ _ _,
    fileBytes_padding image k j hk (by omega) h2⟩

theorem SaveBMP_padding_zero_witness :
    (∃ fs' out, SaveBMP emptyDisk "out.bmp" redOverBlue = some (true, fs') ∧
        fs'.files "out.bmp" = some out ∧ out[57]? = some 0) ∧
      (∃ fs' out, SaveBMP emptyDisk "out.bmp" redOverBlue = some (true, fs') ∧
        fs'.files "out.bmp" = some out ∧ out[61]? = some 0) :=
  ⟨SaveBMP_padding_zero emptyDisk "out.bmp" redOverBlue (by decide) (by decide) rfl (by decide)
      0 3 (by decide) (by decide) (by decide),
    SaveBMP_padding_zero emptyDisk "out.bmp" redOverBlue (by decide) (by decide) rfl (by decide)
      1 3 (by decide) (by decide) (by decide)⟩

/-- C14, counterexample. The image `wideWhite` is not empty (width 715827882,
height 2, every pixel white) and the path can be opened; `k = 1` is a row index
and `j = 3W = 2147483646` lies in `3W ≤ j < stride(W) = 2147483648`. `SaveBMP`
has no defined result, since `w * 3 + 3` leaves the range of `int`: no run of
it writes a zero byte at offset `54 + 1 * stride(W) + 3W`. -/
theorem SaveBMP_padding_zero_fails_on_wideWhite :
    (0 < wideWhite.width ∧ 0 < wideWhite.height) ∧ emptyDisk.writable "out.bmp" = true ∧
      1 < wideWhite.height ∧ 3 * wideWhite.width ≤ 2147483646 ∧
      2147483646 < stride wideWhite.width ∧
      (wideWhite.GetPixel 715827880 0).r = 255 ∧
      SaveBMP emptyDisk "out.bmp" wideWhite = none ∧
      ¬ ∃ fs' out, SaveBMP emptyDisk "out.bmp" wideWhite = some (true, fs') ∧
        fs'.files "out.bmp" = some out ∧
        out[54 + 1 * stride wideWhite.width + 2147483646]? = some 0 := by
  refine ⟨⟨by decide, by decide⟩, rfl, by decide, by decide, by decide, ?_, SaveBMP_wideWhite,
    ?_⟩
  · rw [GetPixel_wideWhite 715827880 0 (by decide) (by decide)]
    rfl
  · rintro ⟨fs', out, h, -⟩
    rw [SaveBMP_wideWhite] at h
    exact Option.noConfusion h

/-- C15, as amended. Padding is ignored on decode: for any two files of equal
length with a valid header that declares a width `0 < W ≤ 715827881` and a
height `H > 0`, with at least `54 + stride(W) * H` bytes, that differ only at
row-padding positions (offsets `54 + k * stride(W) + j` with `k < H` and
`3W ≤ j < stride(W)`), `LoadBMP` returns the same image. -/
theorem LoadBMP_ignores_padding (fs1 fs2 : FileSystem) (file : Path) (b1 b2 : List Byte)
    (W H : Nat)
    (h1 : fs1.files file = some b1) (h2 : fs2.files file = some b2)
    (hlen : b1.length = b2.length)
    (hsign : b1.take 2 = [66, 77])
    (hplanes : field b1 26 2 = 1) (hbits : field b1 28 2 = 24)
    (hcompress : field b1 30 4 = 0)
    (hhor : field b1 38 4 = 11811) (hver : field b1 42 4 = 11811)
    (hused : field b1 46 4 = 0) (hsignificant : field b1 50 4 = 16777216)
    (hwidth : toInt32 (field b1 18 4) = (W : Int))
    (hheight : toInt32 (field b1 22 4) = (H : Int))
    (_hW : 0 < W) (_hH : 0 < H) (hmax : W ≤ 715827881)
    (hdata : 54 + stride W * H ≤ b1.length)
    (hdiff : ∀ i, i < b1.length → b1[i]? ≠ b2[i]? →
      ∃ k, k < H ∧ ∃ j, j < stride W ∧ 3 * W ≤ j ∧ i = 54 + k * stride W + j) :
    ∃ img, LoadBMP fs1 file = some img ∧ LoadBMP fs2 file = some img ∧
      img.width = W ∧ img.height = H := by
  have hd := diff_unbounded b1 b2 W H hlen hdiff
  have ht := take_eq_of_padding b1 b2 W H hd
  have f : ∀ off n, off + n ≤ 54 → field b2 off n = field b1 off n := by
    intro off n h
    rw [← field_take b2 off n h, ← field_take b1 off n h, ht]
  have hsign2 : b2.take 2 = [66, 77] := by
    have := congrArg (List.take 2) ht
    simp only [List.take_take] at this
    rw [← hsign]
    exact this.symm
  obtain ⟨img1, e1, w1, hh1, p1⟩ := LoadBMP_run fs1 file b1 W H h1 hsign hplanes hbits hcompress
    hhor hver hused hsignificant hwidth hheight hmax hdata
  obtain ⟨img2, e2, w2, hh2, p2⟩ := LoadBMP_run fs2 file b2 W H h2 hsign2
    (by rw [f 26 2 (by omega)]; exact hplanes) (by rw [f 28 2 (by omega)]; exact hbits)
    (by rw [f 30 4 (by omega)]; exact hcompress) (by rw [f 38 4 (by omega)]; exact hhor)
    (by rw [f 42 4 (by omega)]; exact hver) (by rw [f 46 4 (by omega)]; exact hused)
    (by rw [f 50 4 (by omega)]; exact hsignificant)
    (by rw [f 18 4 (by omega)]; exact hwidth) (by rw [f 22 4 (by omega)]; exact hheight)
    hmax (by rw [← hlen]; exact hdata)
  have himg : img1 = img2 := by
    apply Image.ext_pixels img1 img2 (w1.trans w2.symm) (hh1.trans hh2.symm)
    intro x y hx hy
    rw [w1] at hx
    rw [hh1] at hy
    rw [p1 x y hx hy, p2 x y hx hy]
    exact colorAt_congr_of_padding b1 b2 W H hd x y hx
  exact ⟨img1, e1, by rw [himg]; exact e2, w1, hh1⟩

theorem LoadBMP_ignores_padding_witness :
    redOverBlueFile[57]? ≠ paddingFile[57]? ∧ redOverBlueFile[61]? ≠ paddingFile[61]? ∧
      ∃ img, LoadBMP (diskWith "in.bmp" redOverBlueFile) "in.bmp" = some img ∧
        LoadBMP (diskWith "in.bmp" paddingFile) "in.bmp" = some img ∧
        img.width = 1 ∧ img.height = 2 :=
  ⟨by decide, by decide,
    LoadBMP_ignores_padding (diskWith "in.bmp" redOverBlueFile) (diskWith "in.bmp" paddingFile)
      "in.bmp" redOverBlueFile paddingFile 1 2 rfl rfl (by decide) (by decide) (by decide)
      (by decide) (by decide) (by decide) (by decide) (by decide) (by decide) (by decide)
      (by decide) (by decide) (by decide) (by decide) (by decide) (by decide)⟩

/-- C15, counterexample. The files `wideFile` and `wideFilePadded` have the
same length and the same valid header, which declares width `715827882 > 0` and
height `2 > 0`; they hold `54 + stride(715827882) * 2` bytes and differ at one
offset only, `54 + 1 * stride(715827882) + 3 * 715827882`, a row-padding
position. `LoadBMP` returns an image for neither of them, so it does not return
equal images: the stride computation leaves the range of `int`. -/
theorem LoadBMP_padding_fails_on_wideFile :
    wideFile.length = wideFilePadded.length ∧
      wideFile.take 2 = [66, 77] ∧
      field wideFile 26 2 = 1 ∧ field wideFile 28 2 = 24 ∧ field wideFile 30 4 = 0 ∧
      field wideFile 38 4 = 11811 ∧ field wideFile 42 4 = 11811 ∧
      field wideFile 46 4 = 0 ∧ field wideFile 50 4 = 16777216 ∧
      toInt32 (field wideFile 18 4) = 715827882 ∧ toInt32 (field wideFile 22 4) = 2 ∧
      54 + stride 715827882 * 2 ≤ wideFile.length ∧
      (∀ i, i < wideFile.length → wideFile[i]? ≠ wideFilePadded[i]? →
        ∃ k, k < 2 ∧ ∃ j, j < stride 715827882 ∧ 3 * 715827882 ≤ j ∧
          i = 54 + k * stride 715827882 + j) ∧
      wideFile[54 + 1 * stride 715827882 + 3 * 715827882]? = some 0 ∧
      wideFilePadded[54 + 1 * stride 715827882 + 3 * 715827882]? = some 9 ∧
      LoadBMP (diskWith "in.bmp" wideFile) "in.bmp" = none ∧
      LoadBMP (diskWith "in.bmp" wideFilePadded) "in.bmp" = none ∧
      ¬ ∃ img, LoadBMP (diskWith "in.bmp" wideFile) "in.bmp" = some img ∧
        LoadBMP (diskWith "in.bmp" wideFilePadded) "in.bmp" = some img := by
  have hpos : 54 + 1 * stride 715827882 + 3 * 715827882 = widePrefix.length := by
    rw [length_widePrefix]; decide
  refine ⟨?_, take_wideFile, ?_, ?_, ?_, ?_, ?_, ?_, ?_, ?_, ?_, ?_, ?_, ?_, ?_,
    LoadBMP_wideFile, LoadBMP_wideFilePadded, ?_⟩
  · rw [length_wideFile, length_wideFilePadded]
  · rw [field_wideFile 26 2 (by omega)]; decide
  · rw [field_wideFile 28 2 (by omega)]; decide
  · rw [field_wideFile 30 4 (by omega)]; decide
  · rw [field_wideFile 38 4 (by omega)]; decide
  · rw [field_wideFile 42 4 (by omega)]; decide
  · rw [field_wideFile 46 4 (by omega)]; decide
  · rw [field_wideFile 50 4 (by omega)]; decide
  · rw [field_wideFile 18 4 (by omega)]; decide
  · rw [field_wideFile 22 4 (by omega)]; decide
  · rw [length_wideFile]; decide
  · intro i _ hne
    rw [wideFile_eq, wideFilePadded_eq] at hne
    have hi := getElem?_append_pair widePrefix 0 9 0 i hne
    rw [length_widePrefix] at hi
    exact ⟨1, by decide, 2147483646, by decide, by decide, by rw [hi]; decide⟩
  · rw [hpos, wideFile_eq, List.getElem?_append_right (Nat.le_refl _), Nat.sub_self]
    rfl
  · rw [hpos, wideFilePadded_eq, List.getElem?_append_right (Nat.le_refl _), Nat.sub_self]
    rfl
  · rintro ⟨img, h, -⟩
    rw [LoadBMP_wideFile] at h
    exact Option.noConfusion h

/-- C16, as amended. Stride formula equivalence: for every `W` with
`0 ≤ W ≤ 715827881`, `GetBMPStride W` has a value, and this value equals the
row-alignment rule `4 * ceil(3W / 4)`: it is a multiple of 4, it is at least
`3W`, and no multiple of 4 that is at least `3W` is smaller. -/
theorem GetBMPStride_eq_rowAlignment (W : Nat) (hmax : W ≤ 715827881) :
    GetBMPStride (W : Int) = some (rowAlignment W : Int) ∧
      4 ∣ rowAlignment W ∧ 3 * W ≤ rowAlignment W ∧
      ∀ m, 4 ∣ m → 3 * W ≤ m → rowAlignment W ≤ m := by
  rw [← stride_eq_rowAlignment]
  refine ⟨(GetBMPStride_nat).2 ⟨hmax, rfl⟩, ?_, ?_, fun m h4 hm => stride_least W m h4 hm⟩
  · exact Nat.dvd_of_mod_eq_zero (stride_mod W)
  · have := stride_ge W
    omega

theorem GetBMPStride_eq_rowAlignment_witness :
    (5 : Nat) ≤ 715827881 ∧ GetBMPStride ((5 : Nat) : Int) = some (rowAlignment 5 : Int) ∧
      4 ∣ rowAlignment 5 ∧ 3 * 5 ≤ rowAlignment 5 ∧
      ∀ m, 4 ∣ m → 3 * 5 ≤ m → rowAlignment 5 ≤ m :=
  ⟨by decide, GetBMPStride_eq_rowAlignment 5 (by decide)⟩

/-- C16, counterexample. For `W = 715827882` the row-alignment rule gives
`2147483648`, but `GetBMPStride W` has no value: `W * 3 + 3` leaves the range
of `int`. -/
theorem GetBMPStride_ne_rowAlignment :
    rowAlignment 715827882 = 2147483648 ∧
      GetBMPStride ((715827882 : Nat) : Int) = none ∧
      GetBMPStride ((715827882 : Nat) : Int) ≠ some (rowAlignment 715827882 : Int) := by
  have hr : rowAlignment 715827882 = 2147483648 := by
    rw [← stride_eq_rowAlignment]; decide
  have h : GetBMPStride ((715827882 : Nat) : Int) = none := by decide
  refine ⟨hr, h, ?_⟩
  rw [h]
  exact fun h => Option.noConfusion h

/-- C17, as amended. Padding length: for every `W` with `0 ≤ W ≤ 715827881`,
`GetBMPStride W` has a value `s`, and the padding `s - W * 3` that `SaveBMP` and
`LoadBMP` both compute from it is defined and equals `W mod 4`; it is zero when
`W` is a multiple of 4. -/
theorem GetBMPStride_padding (W : Nat) (hmax : W ≤ 715827881) :
    ∃ s, GetBMPStride (W : Int) = some s ∧ s - 3 * (W : Int) = ((W % 4 : Nat) : Int) ∧
      int32 (s - (W : Int) * 3) = some ((W % 4 : Nat) : Int) ∧
      (W % 4 = 0 → s - 3 * (W : Int) = 0) := by
  have h1 := stride_sub W
  have h2 := stride_ge W
  refine ⟨(stride W : Int), (GetBMPStride_nat).2 ⟨hmax, rfl⟩, by omega, ?_, fun h0 => by omega⟩
  rw [int32_of_range (by omega) (by omega)]
  congr 1
  omega

theorem GetBMPStride_padding_witness :
    (6 : Nat) ≤ 715827881 ∧
      ∃ s, GetBMPStride ((6 : Nat) : Int) = some s ∧ s - 3 * ((6 : Nat) : Int) = ((6 % 4 : Nat) : Int) ∧
        int32 (s - ((6 : Nat) : Int) * 3) = some ((6 % 4 : Nat) : Int) ∧
        (6 % 4 = 0 → s - 3 * ((6 : Nat) : Int) = 0) :=
  ⟨by decide, GetBMPStride_padding 6 (by decide)⟩

/-- C17, counterexample. For `W = 715827882` no value of `GetBMPStride W`
exceeds `3 * W` by `W mod 4 = 2`: the evaluation has no value. -/
theorem GetBMPStride_padding_overflow :
    715827882 % 4 = 2 ∧
      ¬ ∃ s, GetBMPStride ((715827882 : Nat) : Int) = some s ∧
        s - 3 * ((715827882 : Nat) : Int) = ((715827882 % 4 : Nat) : Int) := by
  refine ⟨by decide, ?_⟩
  rintro ⟨s, hs, -⟩
  have h : GetBMPStride ((715827882 : Nat) : Int) = none := by decide
  rw [h] at hs
  exact Option.noConfusion hs

/-- C18. The 32-bit evaluation of `GetBMPStride`: for every `W` with
`0 ≤ W ≤ 715827881` the intermediate `3W + 3` and the result stay within
`2^31 - 1`, and the `int` evaluation yields the exact value
`4 * floor((3W + 3) / 4)`; for `W = 715827882` the intermediate is
`2147483649 > 2^31 - 1` and the evaluation has no value, so the bound is tight. -/
theorem GetBMPStride_int_exact (W : Int) (hW : 0 ≤ W) (hmax : W ≤ 715827881) :
    (3 * W + 3 ≤ 2147483647 ∧ 4 * ((3 * W + 3) / 4) ≤ 2147483647 ∧
      GetBMPStride W = some (4 * ((3 * W + 3) / 4)) ∧
      GetBMPStride W = some ((stride W.toNat : Nat) : Int)) ∧
    ((3 : Int) * 715827882 + 3 = 2147483649 ∧ (2147483649 : Int) > INT_MAX ∧
      GetBMPStride 715827882 = none) := by
  refine ⟨⟨by omega, by omega, ?_, ?_⟩, by decide, by decide, by decide⟩
  · rw [GetBMPStride_eq_some hW]
    exact ⟨hmax, by rw [Int.mul_comm 3 W]⟩
  · obtain ⟨n, rfl⟩ := Int.eq_ofNat_of_zero_le hW
    rw [Int.toNat_ofNat]
    exact (GetBMPStride_nat).2 ⟨by omega, rfl⟩

theorem GetBMPStride_int_exact_witness :
    (0 : Int) ≤ 715827881 ∧ (715827881 : Int) ≤ 715827881 ∧
      GetBMPStride 715827881 = some 2147483644 ∧
      (4 : Int) * ((3 * 715827881 + 3) / 4) = 2147483644 ∧ GetBMPStride 715827882 = none :=
  ⟨by decide, by decide,
    (GetBMPStride_int_exact 715827881 (by decide) (by decide)).1.2.2.1.trans (by decide),
    by decide, (GetBMPStride_int_exact 715827881 (by decide) (by decide)).2.2.2⟩

end img_lib
